import Mathlib

/-!
Verification development for the scones constructor/builder generation engine
(crates `scones_macros`, `scones`, with behavior exercised by crate `examples`).

The engine is embedded shallowly:

* Token streams that only ever carry initializer expressions are embedded as a
  small expression type `SExpr` with an evaluator over integer-valued fields;
  idents and type tokens are embedded as `String`.
* `syn` parsing primitives (visibility, types, expressions) are treated as
  opaque: a directive's annotation text is embedded post-lexing as the record
  of which optional components were present (`CtorDirectiveText`,
  `BuilderDirectiveText`), mirroring the `Parse` impls in
  `scones_macros/src/lib.rs`.
* `HashMap<String, TokenStream2>` is embedded as an association list where an
  insert prepends and a lookup takes the first hit, giving the same
  observable insert-overwrites semantics.
* `Inflector::to_pascal_case` comes from the external `inflector` dependency;
  `toPascalCase` below models its documented camel-like conversion for the
  ASCII identifiers that can occur as Rust field names (`trim_right` is a
  no-op on identifiers and is dropped).
* Generated code is embedded by its observable description (parameter lists,
  chosen per-field initializers, builder field classifications and status
  type parameters) plus an evaluator for the generated constructors and
  builders over `Int`-valued fields. Documentation output is advisory only
  and is not modelled.
-/

/-- Initializer expressions: the fragments of user code carried by `#[value]`
annotations and parameter references. `lit` is an integer literal, `param n`
is a bare reference to a parameter or `let`-bound builder field `n`,
`unwrapOr n d` is `n.unwrap_or(d)`, and `other` is an arbitrary opaque
expression. -/
inductive SExpr
  | lit (n : Int)
  | param (name : String)
  | unwrapOr (name : String) (dflt : SExpr)
  | other (tag : String)
deriving DecidableEq

/-- `syn::Visibility` restricted to the two outcomes the engine distinguishes:
an explicit `pub` and the blank (inherited) visibility that
`input.parse::<Visibility>()` yields on an empty prefix. -/
inductive Vis
  | Public
  | Inherited
deriving DecidableEq

/-- `ReturnSemantics` from `scones_macros/src/lib.rs`. -/
inductive ReturnSemantics
  | Selff
  | Result
deriving DecidableEq

/-- The `-> ...` return-shape text of a directive, post-lexing: its head
identifier is either literally `Self`, literally `Result` (with the error
type that stands in its second argument), or some other head. -/
inductive ReturnShapeText
  | selfHead
  | resultHead (errTy : String)
  | otherHead (ty : String)
deriving DecidableEq

/-- `FieldInfo` from `scones_macros/src/lib.rs`: one entry per struct field.
`custom_init` is the `HashMap<String, TokenStream2>` keyed by generated-item
name, embedded as an association list (inserts prepend, lookups take the
first hit). -/
structure FieldInfo where
  ident : String
  ty : String
  custom_init : List (String × SExpr)
  default_init : Option SExpr
deriving DecidableEq

/-- `HashMap::insert`: later inserts win over earlier ones. -/
def hmInsert (m : List (String × SExpr)) (k : String) (v : SExpr) :
    List (String × SExpr) :=
  (k, v) :: m

/-- `HashMap::get`. -/
def hmGet (m : List (String × SExpr)) (k : String) : Option SExpr :=
  (m.find? (fun p => p.1 = k)).map (fun p => p.2)

/-- `HashMap::contains_key`. -/
def hmContains (m : List (String × SExpr)) (k : String) : Bool :=
  (hmGet m k).isSome

/-- `BuilderParam` from `scones_macros/src/lib.rs`: one entry of a
`make_builder` directive's parameter list. -/
inductive BuilderParam
  | Field (name : String) (overrid : Bool)
  | Custom (name : String) (ty : String) (optional : Bool)
deriving DecidableEq

/-- `ConstructorParam` from `scones_macros/src/lib.rs`. -/
inductive ConstructorParam
  | Field (name : String)
  | Custom (name : String) (ty : String)
  | Ellipses
deriving DecidableEq

/-- `PartialBuilderInfo` from `scones_macros/src/lib.rs` (documentation is
advisory output and not modelled). -/
structure PartialBuilderInfo where
  vis : Vis
  name : Option String
  params : List BuilderParam
  custom_return_type : Option String
  return_semantics : ReturnSemantics
deriving DecidableEq

/-- `BuilderInfo` from `scones_macros/src/lib.rs`. -/
structure BuilderInfo where
  vis : Vis
  name : String
  params : List BuilderParam
  custom_return_type : Option String
  return_semantics : ReturnSemantics
deriving DecidableEq

/-- `ConstructorInfo` from `scones_macros/src/lib.rs`. -/
structure ConstructorInfo where
  vis : Vis
  name : String
  params : List ConstructorParam
  custom_return_type : Option String
  return_semantics : ReturnSemantics
deriving DecidableEq

/-- The annotation text of one `make_builder` directive, post-lexing: which
of the four optional components are present. -/
structure BuilderDirectiveText where
  visText : Option Vis
  nameText : Option String
  paramsText : Option (List BuilderParam)
  returnText : Option ReturnShapeText
deriving DecidableEq

/-- The annotation text of one `make_constructor` directive, post-lexing. -/
structure CtorDirectiveText where
  visText : Option Vis
  nameText : Option String
  paramsText : Option (List ConstructorParam)
  returnText : Option ReturnShapeText
deriving DecidableEq

/-- The return-shape arm of `PartialBuilderInfo::parse`: `Self` keeps the
parsed type, `Result` extracts the second type argument, any other head is
the hard parse failure. -/
def parseBuilderReturn (t : Option ReturnShapeText) :
    Except String (Option String × ReturnSemantics) :=
  match t with
  | none => .ok (none, ReturnSemantics.Selff)
  | some .selfHead => .ok (some "Self", ReturnSemantics.Selff)
  | some (.resultHead errTy) => .ok (some errTy, ReturnSemantics.Result)
  | some (.otherHead _) =>
      .error "This macro can only create constructors that return Self or Result<Self, _>."

/-- The return-shape arm of `ConstructorInfo::parse`: like the builder arm
except that the `Result` case rebuilds the full
`::core::result::Result<Self, E>` type. -/
def parseCtorReturn (t : Option ReturnShapeText) :
    Except String (Option String × ReturnSemantics) :=
  match t with
  | none => .ok (none, ReturnSemantics.Selff)
  | some .selfHead => .ok (some "Self", ReturnSemantics.Selff)
  | some (.resultHead errTy) =>
      .ok (some ("::core::result::Result<Self, " ++ errTy ++ ">"), ReturnSemantics.Result)
  | some (.otherHead _) =>
      .error "This macro can only create constructors that return Self or Result<Self, _>."

/-- `PartialBuilderInfo::parse`: an absent visibility parses as the blank
(`Inherited`) visibility; only when the name is also absent is the
visibility replaced by `pub`. Params default to the empty list. -/
def PartialBuilderInfo.parse (input : BuilderDirectiveText) :
    Except String PartialBuilderInfo :=
  let vis0 := input.visText.getD Vis.Inherited
  let (vis, name) :=
    match input.nameText with
    | some n => (vis0, some n)
    | none => (Vis.Public, (none : Option String))
  let params := input.paramsText.getD []
  match parseBuilderReturn input.returnText with
  | .error e => .error e
  | .ok (crt, sem) => .ok ⟨vis, name, params, crt, sem⟩

/-- `PartialBuilderInfo::complete`: the default builder name is the struct
name with the `Builder` suffix. -/
def PartialBuilderInfo.complete (self : PartialBuilderInfo) (struct_name : String) :
    BuilderInfo :=
  ⟨self.vis, self.name.getD (struct_name ++ "Builder"), self.params,
   self.custom_return_type, self.return_semantics⟩

/-- `ConstructorInfo::parse`: an absent visibility parses as the blank
(`Inherited`) visibility; only when the name is also absent is the
visibility replaced by `pub` and the name by `new`. Params default to a
sole ellipses entry. -/
def ConstructorInfo.parse (input : CtorDirectiveText) :
    Except String ConstructorInfo :=
  let vis0 := input.visText.getD Vis.Inherited
  let (vis, name) :=
    match input.nameText with
    | some n => (vis0, n)
    | none => (Vis.Public, "new")
  let params := input.paramsText.getD [ConstructorParam.Ellipses]
  match parseCtorReturn input.returnText with
  | .error e => .error e
  | .ok (crt, sem) => .ok ⟨vis, name, params, crt, sem⟩

/-- `char_is_seperator` as used by the `inflector` dependency's camel-like
conversions: any non-alphanumeric character separates words. -/
def charIsSeparator (c : Char) : Bool :=
  !c.isAlphanum

/-- One step of `inflector`'s `to_case_camel_like` state machine with the
PascalCase options (`new_word = true`, no separator injection). State is
(new_word, last_char, output so far). -/
def pascalStep (st : Bool × Char × List Char) (character : Char) :
    Bool × Char × List Char :=
  let (new_word, last_char, result) := st
  if charIsSeparator character then
    (true, character, result)
  else if character.isDigit then
    (true, character, result ++ [character])
  else if new_word || (last_char.isLower && character.isUpper && last_char ≠ ' ') then
    (false, character, result ++ [character.toUpper])
  else
    (false, character, result ++ [character.toLower])

/-- Modelled from the `inflector` dependency: `to_pascal_case`, restricted to
the ASCII identifier characters that occur in Rust field names
(`trim_right` is the identity on identifiers). -/
def toPascalCase (s : String) : String :=
  ⟨(s.data.foldl pascalStep (true, ' ', [])).2.2⟩

/-- The status type parameter synthesized for a required builder field:
`format_ident!("{}Status__", name.to_pascal_case())` in
`make_builder_fields`. -/
def statusParamName (name : String) : String :=
  toPascalCase name ++ "Status__"

/-- `BuilderField` from `scones_macros/src/lib.rs`. -/
inductive BuilderField
  | Required (name : String) (ty : String) (status_param : String)
  | Optional (name : String) (ty : String)
  | Override (name : String) (ty : String)
deriving DecidableEq

/-- `BuilderField::borrow_name`. -/
def BuilderField.borrow_name : BuilderField → String
  | .Required name _ _ => name
  | .Optional name _ => name
  | .Override name _ => name

/-- The "still needs a parameter" pool shared by `make_constructor_args` and
`make_builder_fields`: fields with neither a default initializer nor an
override keyed to this generated item's name. -/
def isPoolField (item_name : String) (f : FieldInfo) : Bool :=
  !hmContains f.custom_init item_name && f.default_init.isNone

/-- The initial `remaining_fields` vector for generated item `item_name`. -/
def poolFields (item_name : String) (fields : List FieldInfo) : List FieldInfo :=
  fields.filter (isPoolField item_name)

/-- `fields.iter().find(|f| f.ident == name)`-style lookup over the full
field list (the fallback loop in both resolvers). -/
def findField (fields : List FieldInfo) (name : String) : Option FieldInfo :=
  fields.find? (fun f => f.ident = name)

/-- Scan `remaining_fields` for the first field with the given ident and
remove it (the `remaining_fields.remove(index)` loop in both resolvers). -/
def extractFirst : List FieldInfo → String → Option (FieldInfo × List FieldInfo)
  | [], _ => none
  | f :: fs, name =>
      if f.ident = name then some (f, fs)
      else (extractFirst fs name).map (fun p => (p.1, f :: p.2))

/-- One generated constructor parameter, `#name: #ty`. -/
structure CtorArg where
  name : String
  ty : String
deriving DecidableEq

/-- `quote! { #name: #ty }` for a field. -/
def argOfField (f : FieldInfo) : CtorArg :=
  ⟨f.ident, f.ty⟩

/-- The `ConstructorParam::Field` arm of `make_constructor_args`: consume the
field from the unconsumed pool if it is there, otherwise fall back to the
full field list, otherwise error. Returns the emitted parameter and the
updated pool. -/
def resolveFieldParam (fields remaining : List FieldInfo) (field_name : String) :
    Except String (CtorArg × List FieldInfo) :=
  match extractFirst remaining field_name with
  | some (f, remaining2) => .ok (argOfField f, remaining2)
  | none =>
      match findField fields field_name with
      | some f => .ok (argOfField f, remaining)
      | none =>
          .error "Could not find a field with this name (or it was used earlier in the constructor)"

/-- `Vec::insert` at an index (indexes in real runs never exceed the
length; `List.take` clamps like the in-bounds case). -/
def insertAt (l : List CtorArg) (i : Nat) (x : CtorArg) : List CtorArg :=
  l.take i ++ x :: l.drop i

/-- The trailing loop of `make_constructor_args`: insert each leftover pool
field at the insertion index, incrementing the index each time. -/
def insertRemaining : List FieldInfo → List CtorArg → Nat → List CtorArg
  | [], impls, _ => impls
  | f :: fs, impls, idx => insertRemaining fs (insertAt impls idx (argOfField f)) (idx + 1)

/-- The parameter walk of `make_constructor_args`: state is the emitted
parameters, the unconsumed pool, and the remaining-fields insertion index
(overwritten at every ellipses entry). -/
def mcaLoop (fields : List FieldInfo) :
    List ConstructorParam → List CtorArg → List FieldInfo → Nat →
    Except String (List CtorArg × List FieldInfo × Nat)
  | [], impls, remaining, idx => .ok (impls, remaining, idx)
  | ConstructorParam.Field n :: ps, impls, remaining, idx =>
      match resolveFieldParam fields remaining n with
      | .error e => .error e
      | .ok (arg, remaining2) => mcaLoop fields ps (impls ++ [arg]) remaining2 idx
  | ConstructorParam.Custom n ty :: ps, impls, remaining, idx =>
      mcaLoop fields ps (impls ++ [⟨n, ty⟩]) remaining idx
  | ConstructorParam.Ellipses :: ps, impls, remaining, _ =>
      mcaLoop fields ps impls remaining impls.length

/-- `make_constructor_args` from `scones_macros/src/lib.rs`: resolve the
directive's parameter spec against the pool, then insert every leftover
pool field at the recorded index (which starts at the parameter count, so
that with no ellipses the leftovers land at the end). -/
def make_constructor_args (constructor_name : String) (param_info : List ConstructorParam)
    (fields : List FieldInfo) : Except String (List CtorArg) :=
  match mcaLoop fields param_info [] (poolFields constructor_name fields) param_info.length with
  | .error e => .error e
  | .ok (impls, remaining, idx) => .ok (insertRemaining remaining impls idx)

/-- The `BuilderParam::Field` arm of `make_builder_fields`: like
`resolveFieldParam` but yielding the found field (the caller classifies it);
the fallback clones from the full list without consuming the pool. -/
def resolveBuilderFieldParam (fields remaining : List FieldInfo) (field_name : String) :
    Except String (FieldInfo × List FieldInfo) :=
  match extractFirst remaining field_name with
  | some (f, remaining2) => .ok (f, remaining2)
  | none =>
      match findField fields field_name with
      | some f => .ok (f, remaining)
      | none => .error "Could not find a field with this name"

/-- The parameter walk of `make_builder_fields`: state is the status type
parameters, the builder fields, and the unconsumed pool. -/
def mbfLoop (fields : List FieldInfo) :
    List BuilderParam → List String → List BuilderField → List FieldInfo →
    Except String (List String × List BuilderField × List FieldInfo)
  | [], sps, bfs, remaining => .ok (sps, bfs, remaining)
  | BuilderParam.Field n overrid :: ps, sps, bfs, remaining =>
      match resolveBuilderFieldParam fields remaining n with
      | .error e => .error e
      | .ok (f, remaining2) =>
          if overrid then
            mbfLoop fields ps sps (bfs ++ [BuilderField.Override n f.ty]) remaining2
          else
            mbfLoop fields ps (sps ++ [statusParamName f.ident])
              (bfs ++ [BuilderField.Required n f.ty (statusParamName f.ident)]) remaining2
  | BuilderParam.Custom n ty optional :: ps, sps, bfs, remaining =>
      if optional then
        mbfLoop fields ps sps (bfs ++ [BuilderField.Optional n ty]) remaining
      else
        mbfLoop fields ps (sps ++ [statusParamName n])
          (bfs ++ [BuilderField.Required n ty (statusParamName n)]) remaining

/-- `make_builder_fields` from `scones_macros/src/lib.rs`: walk the
directive's parameters, then append every leftover pool field as a
required field with a fresh status parameter. -/
def make_builder_fields (builder_name : String) (params : List BuilderParam)
    (fields : List FieldInfo) : Except String (List String × List BuilderField) :=
  match mbfLoop fields params [] [] (poolFields builder_name fields) with
  | .error e => .error e
  | .ok (sps, bfs, remaining) =>
      .ok (sps ++ remaining.map (fun f => statusParamName f.ident),
        bfs ++ remaining.map (fun f => BuilderField.Required f.ident f.ty (statusParamName f.ident)))

/-- The per-field initializer selection shared by `make_constructor_impl` and
`make_builder_impl`: the override registered for this item's name, else the
default initializer, else the bare parameter reference. -/
def chosenInit (item_name : String) (f : FieldInfo) : SExpr :=
  ((hmGet f.custom_init item_name).or f.default_init).getD (SExpr.param f.ident)

/-- The observable description of one generated builder: its name, status
type parameters, builder fields, override-field name set, return semantics
and the per-struct-field chosen initializers in declaration order. -/
structure GenBuilder where
  builderName : String
  is_tuple : Bool
  status_params : List String
  builder_fields : List BuilderField
  override_fields : List String
  return_semantics : ReturnSemantics
  inits : List (String × SExpr)
deriving DecidableEq

/-- `make_builder_impl` from `scones_macros/src/lib.rs`, reduced to the
observable description (generic parameters of the host struct and the
documentation string are not modelled). -/
def make_builder_impl (is_tuple : Bool) (info : BuilderInfo) (fields : List FieldInfo) :
    Except String GenBuilder :=
  match make_builder_fields info.name info.params fields with
  | .error e => .error e
  | .ok (sps, bfs) =>
      .ok { builderName := info.name
            is_tuple := is_tuple
            status_params := sps
            builder_fields := bfs
            override_fields := bfs.filterMap (fun bf =>
              match bf with
              | BuilderField.Override n _ => some n
              | _ => none)
            return_semantics := info.return_semantics
            inits := fields.map (fun f => (f.ident, chosenInit info.name f)) }

/-- The runtime value of a generated builder over `Int`-valued fields:
`vals` is positionally aligned with `builder_fields` (a required field's
`BuilderFieldContainer` data, or an optional/override field's `Option`),
and `marks` is positionally aligned with `status_params` (`true` for
`Present`, `false` for `Missing` in the builder value's type arguments). -/
structure BuilderState where
  vals : List (Option Int)
  marks : List Bool
deriving DecidableEq

/-- The generated `new()` entry point: every container missing, every
option empty, every status argument `Missing`. -/
def newBuilderState (g : GenBuilder) : BuilderState :=
  ⟨g.builder_fields.map (fun _ => none), g.status_params.map (fun _ => false)⟩

/-- The generated setter of a required builder field `name` with status
parameter `sp`: a new builder whose field `name` holds
`BuilderFieldContainer::present(value)`, every other field copied from
`self`, and whose return type substitutes `Present` exactly where the
status parameter list mentions `sp`. -/
def requiredSetter (g : GenBuilder) (name sp : String) (value : Int) (st : BuilderState) :
    BuilderState :=
  ⟨List.zipWith (fun bf x => if bf.borrow_name = name then some value else x)
      g.builder_fields st.vals,
   List.zipWith (fun s m => if s = sp then true else m) g.status_params st.marks⟩

/-- The generated setter of an optional or override builder field: sets the
field's option in place, no status change. -/
def optionalSetter (g : GenBuilder) (name : String) (value : Int) (st : BuilderState) :
    BuilderState :=
  ⟨List.zipWith (fun bf x => if bf.borrow_name = name then some value else x)
      g.builder_fields st.vals,
   st.marks⟩

/-- The value a `let` binding of `build()`'s `constructor_setup` gives a
name: an `Int` for a required field (`into_value()`), an `Option Int` for
an optional/override field, or nothing. -/
inductive BindVal
  | intv (v : Int)
  | optv (o : Option Int)
  | unbound
deriving DecidableEq

/-- Evaluate an initializer expression under the bindings
`constructor_setup` established (an unwrap of an empty required container
cannot be reached from generated code and is given the value 0). -/
def evalS (env : String → BindVal) : SExpr → Int
  | SExpr.lit n => n
  | SExpr.param n =>
      match env n with
      | BindVal.intv v => v
      | BindVal.optv o => o.getD 0
      | BindVal.unbound => 0
  | SExpr.unwrapOr n d =>
      match env n with
      | BindVal.optv o => o.getD (evalS env d)
      | BindVal.intv v => v
      | BindVal.unbound => evalS env d
  | SExpr.other _ => 0

/-- The environment `constructor_setup` builds for `build()`: each builder
field's name is bound to its extracted value (required) or its option
(optional/override). -/
def bindEnv (g : GenBuilder) (st : BuilderState) (n : String) : BindVal :=
  match (g.builder_fields.zip st.vals).find? (fun q => q.1.borrow_name = n) with
  | some (BuilderField.Required _ _ _, x) => BindVal.intv (x.getD 0)
  | some (_, x) => BindVal.optv x
  | none => BindVal.unbound

/-- The struct-field values `build()` assembles, in declaration order: an
override-classified field yields `#ident.unwrap_or(#init)`, any other
field yields its chosen initializer. -/
def buildValues (g : GenBuilder) (st : BuilderState) : List Int :=
  g.inits.map (fun p =>
    if g.override_fields.contains p.1 then
      (match bindEnv g st p.1 with
       | BindVal.optv o => o
       | BindVal.intv v => some v
       | BindVal.unbound => none).getD (evalS (bindEnv g st) p.2)
    else evalS (bindEnv g st) p.2)

/-- The observable description of one generated constructor function. -/
structure GenFunction where
  vis : Vis
  name : String
  args : List CtorArg
  custom_return_type : Option String
  return_semantics : ReturnSemantics
  is_tuple : Bool
  inits : List (String × SExpr)
deriving DecidableEq

/-- `make_constructor_impl` from `scones_macros/src/lib.rs`, reduced to the
observable description: the parameter list from `make_constructor_args`
and, for each field in declaration order, the chosen initializer. -/
def make_constructor_impl (is_tuple : Bool) (info : ConstructorInfo)
    (fields : List FieldInfo) : Except String GenFunction :=
  match make_constructor_args info.name info.params fields with
  | .error e => .error e
  | .ok args =>
      .ok ⟨info.vis, info.name, args, info.custom_return_type, info.return_semantics,
        is_tuple, fields.map (fun f => (f.ident, chosenInit info.name f))⟩

/-- The environment a generated constructor's body runs under: each
parameter name bound to the corresponding call argument. -/
def ctorEnv (g : GenFunction) (argv : List Int) (n : String) : BindVal :=
  match (g.args.zip argv).find? (fun q => q.1.name = n) with
  | some q => BindVal.intv q.2
  | none => BindVal.unbound

/-- The struct-field values a generated constructor assembles, in
declaration order. -/
def evalGenFunction (g : GenFunction) (argv : List Int) : List Int :=
  g.inits.map (fun p => evalS (ctorEnv g argv) p.2)

/-- One `#[value(expr [for item])]` annotation on a field. -/
structure ValueAttr where
  expr : SExpr
  for_item : Option String
deriving DecidableEq

/-- One raw struct field as `generate_items__` sees it: a named field's
ident or `none` for a tuple field, its type, and its `#[value]` annotations
in attribute order. -/
structure RawField where
  ident : Option String
  ty : String
  value_attrs : List ValueAttr
deriving DecidableEq

/-- `syn::Fields`: a braced field list (possibly empty), a tuple field list
(possibly empty), or the unit shape with no field list at all. -/
inductive StructFields
  | Named (fields : List RawField)
  | Unnamed (fields : List RawField)
  | Unit
deriving DecidableEq

/-- The shape dispatch at the top of `generate_items__`: braced structs and
tuple structs are accepted (with their `is_tuple` flag); only the unit
shape is rejected. -/
def classifyStructFields (s : StructFields) : Except String (List RawField × Bool) :=
  match s with
  | StructFields.Named fs => .ok (fs, false)
  | StructFields.Unnamed fs => .ok (fs, true)
  | StructFields.Unit => .error "Cannot use make_constructor or make_builder on a unit struct."

/-- Process one `#[value]` annotation in `generate_items__`'s field loop:
a `for` clause must name a known generated item and registers an override
(overwriting any earlier one for the same item), no `for` clause overwrites
the default initializer. The accumulator is (custom_init, default_init). -/
def applyValueAttr (item_names : List String)
    (acc : List (String × SExpr) × Option SExpr) (va : ValueAttr) :
    Except String (List (String × SExpr) × Option SExpr) :=
  match va.for_item with
  | some item =>
      if item_names.contains item then .ok (hmInsert acc.1 item va.expr, acc.2)
      else .error ("The identifier " ++ item ++ " does not refer to a constructor or builder.")
  | none => .ok (acc.1, some va.expr)

/-- Fold `applyValueAttr` over a field's annotations in attribute order. -/
def extractFieldInfoLoop (item_names : List String) :
    List ValueAttr → (List (String × SExpr) × Option SExpr) →
    Except String (List (String × SExpr) × Option SExpr)
  | [], acc => .ok acc
  | va :: vas, acc =>
      match applyValueAttr item_names acc va with
      | .error e => .error e
      | .ok acc2 => extractFieldInfoLoop item_names vas acc2

/-- Build one `FieldInfo` from a raw field: tuple fields get the synthetic
`field_N` name. -/
def extractFieldInfo (item_names : List String) (index : Nat) (rf : RawField) :
    Except String FieldInfo :=
  match extractFieldInfoLoop item_names rf.value_attrs ([], none) with
  | .error e => .error e
  | .ok (ci, di) => .ok ⟨rf.ident.getD ("field_" ++ toString index), rf.ty, ci, di⟩

/-- The field loop of `generate_items__`, indexed from 0. -/
def extractFieldInfos (item_names : List String) :
    Nat → List RawField → Except String (List FieldInfo)
  | _, [] => .ok []
  | i, rf :: rfs =>
      match extractFieldInfo item_names i rf with
      | .error e => .error e
      | .ok fi =>
          match extractFieldInfos item_names (i + 1) rfs with
          | .error e => .error e
          | .ok fis => .ok (fi :: fis)

/-- Map a fallible step over a list, stopping at the first error (the
for-loops with early `return` in `generate_items__`). -/
def mapExcept (f : α → Except String β) : List α → Except String (List β)
  | [] => .ok []
  | a :: as_ =>
      match f a with
      | .error e => .error e
      | .ok b =>
          match mapExcept f as_ with
          | .error e => .error e
          | .ok bs => .ok (b :: bs)

/-- The code `generate_items__` emits, reduced to the observable
descriptions of the generated builders and constructors. -/
structure GenOutput where
  builders : List GenBuilder
  constructors : List GenFunction
deriving DecidableEq

/-- `generate_items__` from `scones_macros/src/lib.rs`: parse the
accumulated directive texts, collect the generated item names, classify the
struct shape, extract the field model once, then synthesize every builder
and every constructor (first error wins, builders before constructors). -/
def generate_items__ (struct_name : String) (shape : StructFields)
    (builder_texts : List BuilderDirectiveText) (ctor_texts : List CtorDirectiveText) :
    Except String GenOutput :=
  match mapExcept PartialBuilderInfo.parse builder_texts with
  | .error e => .error e
  | .ok partials =>
      match mapExcept ConstructorInfo.parse ctor_texts with
      | .error e => .error e
      | .ok ctors =>
          let builders := partials.map (fun b => b.complete struct_name)
          let item_names := ctors.map (fun c => c.name) ++ builders.map (fun b => b.name)
          match classifyStructFields shape with
          | .error e => .error e
          | .ok (raw_fields, is_tuple) =>
              match extractFieldInfos item_names 0 raw_fields with
              | .error e => .error e
              | .ok field_infos =>
                  match mapExcept (fun b => make_builder_impl is_tuple b field_infos) builders with
                  | .error e => .error e
                  | .ok gen_builders =>
                      match mapExcept (fun c => make_constructor_impl is_tuple c field_infos) ctors with
                      | .error e => .error e
                      | .ok gen_ctors => .ok ⟨gen_builders, gen_ctors⟩

/-- The two marker types from `scones/src/lib.rs`. -/
inductive PresenceMarker
  | Present
  | Missing
deriving DecidableEq

/-- `BuilderFieldContainer<FieldType, IsPresent>` from `scones/src/lib.rs`:
an option plus a phantom marker, embedded as a marker-indexed structure. -/
structure BuilderFieldContainer (α : Type) (m : PresenceMarker) where
  data : Option α
deriving DecidableEq

/-- `BuilderFieldContainer::set`, available in every state, returning the
present state. -/
def BuilderFieldContainer.set {α : Type} {m : PresenceMarker}
    (_self : BuilderFieldContainer α m) (value : α) :
    BuilderFieldContainer α PresenceMarker.Present :=
  ⟨some value⟩

/-- `BuilderFieldContainer::missing`, available only in the missing
state. -/
def BuilderFieldContainer.missing {α : Type} :
    BuilderFieldContainer α PresenceMarker.Missing :=
  ⟨none⟩

/-- `BuilderFieldContainer::present`, available only in the present
state. -/
def BuilderFieldContainer.present {α : Type} (value : α) :
    BuilderFieldContainer α PresenceMarker.Present :=
  ⟨some value⟩

/-- `BuilderFieldContainer::into_value`, available only in the present
state; the Rust body unwraps `data`, so the embedded operation surfaces the
option whose emptiness would be the panic branch. -/
def BuilderFieldContainer.into_value {α : Type}
    (self : BuilderFieldContainer α PresenceMarker.Present) : Option α :=
  self.data

/-- The containers constructible through the public container API:
`missing()`, `present(v)`, and `set(v)` on any reachable container. -/
inductive ReachableContainer (α : Type) :
    (m : PresenceMarker) → BuilderFieldContainer α m → Prop
  | missing : ReachableContainer α PresenceMarker.Missing BuilderFieldContainer.missing
  | present (v : α) :
      ReachableContainer α PresenceMarker.Present (BuilderFieldContainer.present v)
  | set {m : PresenceMarker} (c : BuilderFieldContainer α m) (v : α)
      (h : ReachableContainer α m c) :
      ReachableContainer α PresenceMarker.Present (c.set v)

deriving instance DecidableEq for Except

/-- The initializer of the last `#[value(_ for x)]` annotation in a list, in
attribute order: a later occurrence wins over every earlier one. -/
def lastValueFor (x : String) : List ValueAttr → Option SExpr
  | [] => none
  | va :: vas =>
      (lastValueFor x vas).or (if va.for_item = some x then some va.expr else none)


/-- The status parameters of the required fields of a builder-field list, in
order. -/
def requiredStatusParams (bfs : List BuilderField) : List String :=
  bfs.filterMap (fun bf =>
    match bf with
    | BuilderField.Required _ _ sp => some sp
    | _ => none)


/-- The names of a directive's field-reference parameters, in order. -/
def fieldRefNames (params : List ConstructorParam) : List String :=
  params.filterMap (fun p =>
    match p with
    | ConstructorParam.Field n => some n
    | _ => none)

/-- The explicitly placed parameters of a constructor directive: each field
reference resolved against the full field list, each custom parameter
verbatim, ellipses dropped. -/
def explicitArgs (fields : List FieldInfo) (params : List ConstructorParam) :
    List CtorArg :=
  params.filterMap (fun p =>
    match p with
    | ConstructorParam.Field n => (findField fields n).map argOfField
    | ConstructorParam.Custom n ty => some ⟨n, ty⟩
    | ConstructorParam.Ellipses => none)

/-- The insertion index the parameter walk ends with: `base` counts the
parameters emitted so far and every ellipses overwrites the index with the
current count. -/
def finalInsertIdx (base idx : Nat) : List ConstructorParam → Nat
  | [] => idx
  | ConstructorParam.Ellipses :: ps => finalInsertIdx base base ps
  | _ :: ps => finalInsertIdx (base + 1) idx ps

/-- Insert a block of arguments at one index. -/
def insertListAt (i : Nat) (xs l : List CtorArg) : List CtorArg :=
  l.take i ++ xs ++ l.drop i


/-- Claim C1, counterexample: the directive text `foo` (a name, no explicit
visibility token) parses to the blank `Inherited` visibility, not to the
`pub` default the claim asserts; the same holds for a builder directive. -/
theorem c1_counterexample :
    ConstructorInfo.parse ⟨none, some "foo", none, none⟩ =
      .ok ⟨Vis.Inherited, "foo", [ConstructorParam.Ellipses], none, ReturnSemantics.Selff⟩ ∧
    PartialBuilderInfo.parse ⟨none, some "FooBuilder", none, none⟩ =
      .ok ⟨Vis.Inherited, some "FooBuilder", [], none, ReturnSemantics.Selff⟩ ∧
    Vis.Inherited ≠ Vis.Public := by
  decide

/-- Claim C1 (amended): for both directive parsers, the visibility defaults
to public exactly when the name is omitted; a name given without an
explicit visibility token parses to the blank (inherited) visibility. -/
theorem c1_amended_visibility_default (t : CtorDirectiveText) (bt : BuilderDirectiveText) :
    (t.nameText = none →
      ∀ info, ConstructorInfo.parse t = .ok info → info.vis = Vis.Public) ∧
    (t.visText = none → ∀ n, t.nameText = some n →
      ∀ info, ConstructorInfo.parse t = .ok info → info.vis = Vis.Inherited) ∧
    (bt.nameText = none →
      ∀ info, PartialBuilderInfo.parse bt = .ok info → info.vis = Vis.Public) ∧
    (bt.visText = none → ∀ n, bt.nameText = some n →
      ∀ info, PartialBuilderInfo.parse bt = .ok info → info.vis = Vis.Inherited) := by
  refine ⟨?_, ?_, ?_, ?_⟩
  · intro hname info hparse
    unfold ConstructorInfo.parse at hparse
    rw [hname] at hparse
    cases hret : parseCtorReturn t.returnText with
    | error e => rw [hret] at hparse; cases hparse
    | ok pair => rw [hret] at hparse; cases hparse; rfl
  · intro hvis n hname info hparse
    unfold ConstructorInfo.parse at hparse
    rw [hname, hvis] at hparse
    cases hret : parseCtorReturn t.returnText with
    | error e => rw [hret] at hparse; cases hparse
    | ok pair => rw [hret] at hparse; cases hparse; rfl
  · intro hname info hparse
    unfold PartialBuilderInfo.parse at hparse
    rw [hname] at hparse
    cases hret : parseBuilderReturn bt.returnText with
    | error e => rw [hret] at hparse; cases hparse
    | ok pair => rw [hret] at hparse; cases hparse; rfl
  · intro hvis n hname info hparse
    unfold PartialBuilderInfo.parse at hparse
    rw [hname, hvis] at hparse
    cases hret : parseBuilderReturn bt.returnText with
    | error e => rw [hret] at hparse; cases hparse
    | ok pair => rw [hret] at hparse; cases hparse; rfl

/-- Claim C1, witness: the amended theorem applied at concrete directive
texts. -/
theorem c1_amended_visibility_default_witness :
    (∀ info, ConstructorInfo.parse ⟨none, none, none, none⟩ = .ok info →
      info.vis = Vis.Public) ∧
    (∀ info, ConstructorInfo.parse ⟨none, some "foo", none, none⟩ = .ok info →
      info.vis = Vis.Inherited) :=
  ⟨(c1_amended_visibility_default ⟨none, none, none, none⟩
      ⟨none, none, none, none⟩).1 rfl,
   (c1_amended_visibility_default ⟨none, some "foo", none, none⟩
      ⟨none, none, none, none⟩).2.1 rfl "foo" rfl⟩

/-- Claim C3, counterexample: a braced struct with zero fields is accepted
by the shape dispatch, and a full `generate_items__` run on such a struct
(the crate's own `SconesAndDerive` example) produces generated code, not a
diagnostic. -/
theorem c3_counterexample :
    classifyStructFields (StructFields.Named []) = .ok ([], false) ∧
    (generate_items__ "SconesAndDerive" (StructFields.Named [])
      [] [⟨none, none, none, none⟩]).isOk = true := by
  decide

/-- Claim C3 (amended): the unsupported-structure diagnostic is raised for
the unit shape only — a struct declared with no field list at all; braced
and tuple structs with zero fields are accepted and generate code. -/
theorem c3_amended_unit_struct_only :
    (∀ fs, classifyStructFields (StructFields.Named fs) = .ok (fs, false)) ∧
    (∀ fs, classifyStructFields (StructFields.Unnamed fs) = .ok (fs, true)) ∧
    classifyStructFields StructFields.Unit =
      .error "Cannot use make_constructor or make_builder on a unit struct." ∧
    (∀ name bts cts partials ctors,
      mapExcept PartialBuilderInfo.parse bts = .ok partials →
      mapExcept ConstructorInfo.parse cts = .ok ctors →
      generate_items__ name StructFields.Unit bts cts =
        .error "Cannot use make_constructor or make_builder on a unit struct.") := by
  refine ⟨fun fs => rfl, fun fs => rfl, rfl, ?_⟩
  intro name bts cts partials ctors hb hc
  unfold generate_items__
  rw [hb, hc]
  rfl

/-- Claim C3, witness: the amended theorem applied to the concrete unit
struct with one default constructor directive. -/
theorem c3_amended_unit_struct_only_witness :
    generate_items__ "S" StructFields.Unit [] [⟨none, none, none, none⟩] =
      .error "Cannot use make_constructor or make_builder on a unit struct." :=
  c3_amended_unit_struct_only.2.2.2 "S" [] [⟨none, none, none, none⟩] []
    [⟨Vis.Public, "new", [ConstructorParam.Ellipses], none, ReturnSemantics.Selff⟩]
    rfl rfl

/-- Claim C9: every container carrying the `Present` marker that is
constructible through the container API (`present` or `set`, both of which
store a value) has non-empty internal data, so `into_value`'s unwrap never
reaches the empty branch. -/
theorem c9_present_extraction_total (α : Type)
    (c : BuilderFieldContainer α PresenceMarker.Present)
    (h : ReachableContainer α PresenceMarker.Present c) :
    ∃ v, c.into_value = some v := by
  cases h with
  | present v => exact ⟨v, rfl⟩
  | set c0 v h0 => exact ⟨v, rfl⟩

/-- Claim C9, witness: the theorem applied to a concrete container built
with `present`. -/
theorem c9_present_extraction_total_witness :
    ∃ v, (BuilderFieldContainer.present (5 : Int)).into_value = some v :=
  c9_present_extraction_total Int (BuilderFieldContainer.present 5)
    (ReachableContainer.present 5)

theorem hmGet_hmInsert (m : List (String × SExpr)) (k : String) (v : SExpr) (x : String) :
    hmGet (hmInsert m k v) x = if x = k then some v else hmGet m x := by
  by_cases h : x = k
  · subst h
    simp only [hmGet, hmInsert]
    rw [List.find?_cons_of_pos _ (by simp)]
    simp
  · rw [if_neg h]
    simp only [hmGet, hmInsert]
    rw [List.find?_cons_of_neg _ (by simp; exact fun hk => h hk.symm)]

theorem extractFieldInfoLoop_ok (item_names : List String) :
    ∀ (vas : List ValueAttr) (acc : List (String × SExpr) × Option SExpr),
    (∀ va ∈ vas, ∀ it, va.for_item = some it → it ∈ item_names) →
    ∃ ci di, extractFieldInfoLoop item_names vas acc = .ok (ci, di) ∧
      ∀ x, hmGet ci x = (lastValueFor x vas).or (hmGet acc.1 x) := by
  intro vas
  induction vas with
  | nil =>
      intro acc _
      exact ⟨acc.1, acc.2, rfl, fun x => rfl⟩
  | cons va vas ih =>
      intro acc hall
      cases hfor : va.for_item with
      | none =>
          have hrest : ∀ w ∈ vas, ∀ it, w.for_item = some it → it ∈ item_names :=
            fun w hw => hall w (List.mem_cons_of_mem va hw)
          obtain ⟨ci, di, hrun, hget⟩ := ih (acc.1, some va.expr) hrest
          refine ⟨ci, di, ?_, ?_⟩
          · simp only [extractFieldInfoLoop, applyValueAttr, hfor]
            exact hrun
          · intro x
            have := hget x
            simp only [lastValueFor, hfor] at this ⊢
            simpa using this
      | some it =>
          have hmem : it ∈ item_names := hall va (List.mem_cons_self va vas) it hfor
          have hrest : ∀ w ∈ vas, ∀ it2, w.for_item = some it2 → it2 ∈ item_names :=
            fun w hw => hall w (List.mem_cons_of_mem va hw)
          obtain ⟨ci, di, hrun, hget⟩ := ih (hmInsert acc.1 it va.expr, acc.2) hrest
          have hc : item_names.contains it = true := List.elem_eq_true_of_mem hmem
          refine ⟨ci, di, ?_, ?_⟩
          · simp only [extractFieldInfoLoop, applyValueAttr, hfor, hc, if_pos]
            exact hrun
          · intro x
            have h1 := hget x
            rw [hmGet_hmInsert] at h1
            simp only [lastValueFor, hfor]
            by_cases hx : x = it
            · subst hx
              rw [if_pos rfl] at h1
              rw [if_pos rfl, h1]
              cases lastValueFor x vas <;> simp
            · rw [if_neg hx] at h1
              rw [if_neg (fun hsome => hx (Option.some.inj hsome).symm), h1]
              cases lastValueFor x vas <;> simp

/-- Claim C10: when one field carries several `#[value(_ for X)]` annotations
naming the same known target item `X`, extraction succeeds (no error) and
the registered override for `X` is the expression of the last such
annotation in attribute order — the same last-write-wins behavior as for
duplicate default `#[value]` annotations. -/
theorem c10_duplicate_for_overrides_last_wins (item_names : List String) (index : Nat)
    (rf : RawField)
    (hall : ∀ va ∈ rf.value_attrs, ∀ it, va.for_item = some it → it ∈ item_names) :
    ∃ fi, extractFieldInfo item_names index rf = .ok fi ∧
      ∀ x, hmGet fi.custom_init x = lastValueFor x rf.value_attrs := by
  obtain ⟨ci, di, hrun, hget⟩ :=
    extractFieldInfoLoop_ok item_names rf.value_attrs ([], none) hall
  refine ⟨⟨rf.ident.getD ("field_" ++ toString index), rf.ty, ci, di⟩, ?_, ?_⟩
  · simp only [extractFieldInfo, hrun]
  · intro x
    have := hget x
    simpa [hmGet] using this

/-- Claim C10, witness: two annotations both `for X` on one field — no
error, and the second expression (`12`) is the one registered. -/
theorem c10_duplicate_for_overrides_last_wins_witness :
    ∃ fi, extractFieldInfo ["X"] 0
        ⟨some "f", "i32", [⟨SExpr.lit 1, some "X"⟩, ⟨SExpr.lit 12, some "X"⟩]⟩ = .ok fi ∧
      ∀ x, hmGet fi.custom_init x =
        lastValueFor x [⟨SExpr.lit 1, some "X"⟩, ⟨SExpr.lit 12, some "X"⟩] :=
  c10_duplicate_for_overrides_last_wins ["X"] 0
    ⟨some "f", "i32", [⟨SExpr.lit 1, some "X"⟩, ⟨SExpr.lit 12, some "X"⟩]⟩
    (by decide)

theorem extractFirst_eq_none (remaining : List FieldInfo) (n : String) :
    extractFirst remaining n = none ↔ ∀ f ∈ remaining, f.ident ≠ n := by
  induction remaining with
  | nil => simp [extractFirst]
  | cons f fs ih =>
      by_cases h : f.ident = n
      · simp [extractFirst, h]
      · simp [extractFirst, h, ih]

theorem extractFirst_mem (remaining : List FieldInfo) (n : String) :
    ∀ f r2, extractFirst remaining n = some (f, r2) → f ∈ remaining ∧ f.ident = n := by
  induction remaining with
  | nil => intro f r2 h; cases h
  | cons g gs ih =>
      intro f r2 h
      by_cases hg : g.ident = n
      · simp only [extractFirst, if_pos hg] at h
        cases h
        exact ⟨List.mem_cons_self g gs, hg⟩
      · simp only [extractFirst, if_neg hg] at h
        cases hrec : extractFirst gs n with
        | none => rw [hrec] at h; cases h
        | some p =>
            rw [hrec] at h
            cases h
            obtain ⟨hmem, hid⟩ := ih p.1 p.2 hrec
            exact ⟨List.mem_cons_of_mem g hmem, hid⟩

theorem findField_some (fields : List FieldInfo) (n : String) (f : FieldInfo)
    (h : findField fields n = some f) : f ∈ fields ∧ f.ident = n := by
  refine ⟨List.mem_of_find?_eq_some h, ?_⟩
  have := List.find?_some h
  simpa using this

theorem findField_eq_none (fields : List FieldInfo) (n : String) :
    findField fields n = none ↔ ∀ f ∈ fields, f.ident ≠ n := by
  simp [findField, List.find?_eq_none]

/-- Claim C8: resolving a field-reference parameter (constructor and builder
side) fails iff the referenced name is absent from the unconsumed pool and
absent from the full field list; a name absent from the pool but present in
the full list is resolved by the fallback, leaving the pool unchanged. -/
theorem c8_field_reference_resolution (fields remaining : List FieldInfo) (n : String) :
    ((resolveFieldParam fields remaining n).isOk = true ↔
      (∃ f ∈ remaining, f.ident = n) ∨ ∃ f ∈ fields, f.ident = n) ∧
    ((∀ f ∈ remaining, f.ident ≠ n) → ∀ f, findField fields n = some f →
      resolveFieldParam fields remaining n = .ok (argOfField f, remaining)) ∧
    ((resolveBuilderFieldParam fields remaining n).isOk = true ↔
      (∃ f ∈ remaining, f.ident = n) ∨ ∃ f ∈ fields, f.ident = n) ∧
    ((∀ f ∈ remaining, f.ident ≠ n) → ∀ f, findField fields n = some f →
      resolveBuilderFieldParam fields remaining n = .ok (f, remaining)) := by
  refine ⟨?_, ?_, ?_, ?_⟩
  · cases hex : extractFirst remaining n with
    | some p =>
        obtain ⟨f0, r0⟩ := p
        obtain ⟨hmem, hid⟩ := extractFirst_mem remaining n f0 r0 hex
        simp only [resolveFieldParam, hex]
        exact ⟨fun _ => Or.inl ⟨f0, hmem, hid⟩, fun _ => rfl⟩
    | none =>
        cases hff : findField fields n with
        | some f =>
            obtain ⟨hmem, hid⟩ := findField_some fields n f hff
            simp only [resolveFieldParam, hex, hff]
            exact ⟨fun _ => Or.inr ⟨f, hmem, hid⟩, fun _ => rfl⟩
        | none =>
            simp only [resolveFieldParam, hex, hff]
            constructor
            · intro h; cases h
            · intro h
              rcases h with ⟨f, hmem, hid⟩ | ⟨f, hmem, hid⟩
              · exact absurd hid ((extractFirst_eq_none remaining n).mp hex f hmem)
              · exact absurd hid ((findField_eq_none fields n).mp hff f hmem)
  · intro habs f hff
    have hex : extractFirst remaining n = none := (extractFirst_eq_none remaining n).mpr habs
    simp [resolveFieldParam, hex, hff]
  · cases hex : extractFirst remaining n with
    | some p =>
        obtain ⟨f0, r0⟩ := p
        obtain ⟨hmem, hid⟩ := extractFirst_mem remaining n f0 r0 hex
        simp only [resolveBuilderFieldParam, hex]
        exact ⟨fun _ => Or.inl ⟨f0, hmem, hid⟩, fun _ => rfl⟩
    | none =>
        cases hff : findField fields n with
        | some f =>
            obtain ⟨hmem, hid⟩ := findField_some fields n f hff
            simp only [resolveBuilderFieldParam, hex, hff]
            exact ⟨fun _ => Or.inr ⟨f, hmem, hid⟩, fun _ => rfl⟩
        | none =>
            simp only [resolveBuilderFieldParam, hex, hff]
            constructor
            · intro h; cases h
            · intro h
              rcases h with ⟨f, hmem, hid⟩ | ⟨f, hmem, hid⟩
              · exact absurd hid ((extractFirst_eq_none remaining n).mp hex f hmem)
              · exact absurd hid ((findField_eq_none fields n).mp hff f hmem)
  · intro habs f hff
    have hex : extractFirst remaining n = none := (extractFirst_eq_none remaining n).mpr habs
    simp [resolveBuilderFieldParam, hex, hff]

/-- Claim C8, witness: the field `data` has a default initializer, so it is
out of the pool; referencing it falls back to the full field list with the
pool unchanged. -/
theorem c8_field_reference_resolution_witness :
    resolveFieldParam [⟨"data", "i32", [], some (SExpr.lit 0)⟩] [] "data" =
      .ok (⟨"data", "i32"⟩, []) :=
  (c8_field_reference_resolution [⟨"data", "i32", [], some (SExpr.lit 0)⟩] [] "data").2.1
    (by intro f hf; cases hf) ⟨"data", "i32", [], some (SExpr.lit 0)⟩ (by decide)

theorem string_append_right_cancel (a b c : String) (h : a ++ c = b ++ c) : a = b := by
  have h2 : a.data ++ c.data = b.data ++ c.data := by
    have := congrArg String.data h
    simpa using this
  have h3 : a.data = b.data := List.append_cancel_right h2
  cases a; cases b; simp_all

/-- Claim C4, counterexample: the distinct field names `a_b` and `aB` have
the same Pascal-casing, so within one builder both receive the status
parameter `ABStatus__` — the synthesized markers are not distinct. -/
theorem c4_counterexample :
    statusParamName "a_b" = statusParamName "aB" ∧
    "a_b" ≠ "aB" ∧
    make_builder_fields "DemoBuilder" [] [⟨"a_b", "i32", [], none⟩, ⟨"aB", "i32", [], none⟩] =
      .ok (["ABStatus__", "ABStatus__"],
        [BuilderField.Required "a_b" "i32" "ABStatus__",
         BuilderField.Required "aB" "i32" "ABStatus__"]) ∧
    ¬ (["ABStatus__", "ABStatus__"] : List String).Nodup := by
  decide

/-- Claim C4 (amended): two field names receive the same synthesized marker
exactly when their Pascal-casings coincide; consequently the markers of a
builder's required fields are pairwise distinct whenever the pool fields'
Pascal-cased names are pairwise distinct (in particular for ordinary
snake_case names), but distinct names with equal Pascal-casings collide. -/
theorem c4_amended_marker_distinctness (n1 n2 : String) (builder_name : String)
    (fields : List FieldInfo)
    (hpascal : (poolFields builder_name fields).Pairwise
      (fun f g => toPascalCase f.ident ≠ toPascalCase g.ident)) :
    (statusParamName n1 = statusParamName n2 ↔ toPascalCase n1 = toPascalCase n2) ∧
    ∀ sps bfs, make_builder_fields builder_name [] fields = .ok (sps, bfs) → sps.Nodup := by
  constructor
  · constructor
    · intro h
      exact string_append_right_cancel _ _ "Status__" h
    · intro h
      simp only [statusParamName, h]
  · intro sps bfs h
    have hrun : make_builder_fields builder_name [] fields =
        .ok ((poolFields builder_name fields).map (fun f => statusParamName f.ident),
          (poolFields builder_name fields).map
            (fun f => BuilderField.Required f.ident f.ty (statusParamName f.ident))) := by
      simp [make_builder_fields, mbfLoop]
    rw [hrun] at h
    cases h
    refine List.pairwise_map.mpr (hpascal.imp ?_)
    intro f g hne heq
    exact hne (string_append_right_cancel _ _ "Status__" heq)

/-- Claim C4, witness: the amended theorem applied to the `BasicBuilt`
example's field names, whose Pascal-casings are distinct. -/
theorem c4_amended_marker_distinctness_witness :
    (statusParamName "int" = statusParamName "string" ↔
      toPascalCase "int" = toPascalCase "string") ∧
    ∀ sps bfs, make_builder_fields "BasicBuiltBuilder" []
        [⟨"int", "i32", [], none⟩, ⟨"string", "String", [], none⟩] = .ok (sps, bfs) →
      sps.Nodup :=
  c4_amended_marker_distinctness "int" "string" "BasicBuiltBuilder"
    [⟨"int", "i32", [], none⟩, ⟨"string", "String", [], none⟩] (by decide)

/-- Claim C6: for every generated constructor, the per-field initializer
list is, in declaration order, the override registered for this directive's
name, else the field's default initializer, else the bare parameter
reference; and in the spec's third scenario (field `data` with default `0`
and override `12` for directive `custom`), `new()` evaluates `data` to `0`
while `custom()` evaluates it to `12`. -/
theorem c6_initializer_priority :
    (∀ (is_tuple : Bool) (info : ConstructorInfo) (fields : List FieldInfo) (g : GenFunction),
      make_constructor_impl is_tuple info fields = .ok g →
      g.inits = fields.map (fun f =>
        (f.ident, ((hmGet f.custom_init info.name).or f.default_init).getD
          (SExpr.param f.ident)))) ∧
    (generate_items__ "S"
        (StructFields.Named [⟨some "data", "i32",
          [⟨SExpr.lit 12, some "custom"⟩, ⟨SExpr.lit 0, none⟩]⟩])
        [] [⟨none, none, none, none⟩, ⟨none, some "custom", none, none⟩] =
      .ok ⟨[], [⟨Vis.Public, "new", [], none, ReturnSemantics.Selff, false,
                  [("data", SExpr.lit 0)]⟩,
                ⟨Vis.Inherited, "custom", [], none, ReturnSemantics.Selff, false,
                  [("data", SExpr.lit 12)]⟩]⟩ ∧
      evalGenFunction ⟨Vis.Public, "new", [], none, ReturnSemantics.Selff, false,
        [("data", SExpr.lit 0)]⟩ [] = [0] ∧
      evalGenFunction ⟨Vis.Inherited, "custom", [], none, ReturnSemantics.Selff, false,
        [("data", SExpr.lit 12)]⟩ [] = [12]) := by
  constructor
  · intro is_tuple info fields g h
    unfold make_constructor_impl at h
    cases hargs : make_constructor_args info.name info.params fields with
    | error e => rw [hargs] at h; cases h
    | ok args =>
        rw [hargs] at h
        cases h
        rfl
  · refine ⟨by decide, by decide, by decide⟩

/-- Claim C6, witness: the priority part of the theorem applied to the
scenario's field and the default `new` directive. -/
theorem c6_initializer_priority_witness :
    (⟨Vis.Public, "new", [], none, ReturnSemantics.Selff, false,
      [("data", SExpr.lit 0)]⟩ : GenFunction).inits =
      ([⟨"data", "i32", [("custom", SExpr.lit 12)], some (SExpr.lit 0)⟩] :
          List FieldInfo).map
        (fun f => (f.ident, ((hmGet f.custom_init "new").or f.default_init).getD
          (SExpr.param f.ident))) :=
  c6_initializer_priority.1 false
    ⟨Vis.Public, "new", [ConstructorParam.Ellipses], none, ReturnSemantics.Selff⟩
    [⟨"data", "i32", [("custom", SExpr.lit 12)], some (SExpr.lit 0)⟩]
    ⟨Vis.Public, "new", [], none, ReturnSemantics.Selff, false, [("data", SExpr.lit 0)]⟩
    (by decide)

theorem make_builder_impl_ok (is_tuple : Bool) (info : BuilderInfo)
    (fields : List FieldInfo) (g : GenBuilder)
    (h : make_builder_impl is_tuple info fields = .ok g) :
    g.builderName = info.name ∧
    g.inits = fields.map (fun f => (f.ident, chosenInit info.name f)) ∧
    g.override_fields = g.builder_fields.filterMap (fun bf =>
      match bf with
      | BuilderField.Override n _ => some n
      | _ => none) ∧
    make_builder_fields info.name info.params fields =
      .ok (g.status_params, g.builder_fields) := by
  unfold make_builder_impl at h
  cases hmk : make_builder_fields info.name info.params fields with
  | error e => rw [hmk] at h; cases h
  | ok pair =>
      obtain ⟨sps, bfs⟩ := pair
      rw [hmk] at h
      cases h
      exact ⟨rfl, rfl, rfl, rfl⟩

theorem bindEnv_new (g : GenBuilder) (n : String) :
    bindEnv g (newBuilderState g) n =
      match g.builder_fields.find? (fun bf => bf.borrow_name = n) with
      | some (BuilderField.Required _ _ _) => BindVal.intv 0
      | some _ => BindVal.optv none
      | none => BindVal.unbound := by
  show (match (g.builder_fields.zip
      (g.builder_fields.map (fun _ => (none : Option Int)))).find?
        (fun q => q.1.borrow_name = n) with
    | some (BuilderField.Required _ _ _, x) => BindVal.intv (x.getD 0)
    | some (_, x) => BindVal.optv x
    | none => BindVal.unbound) = _
  induction g.builder_fields with
  | nil => rfl
  | cons b bs ih =>
      by_cases hb : b.borrow_name = n
      · simp only [List.map_cons, List.zip_cons_cons]
        rw [List.find?_cons_of_pos _ (by simpa using hb),
          List.find?_cons_of_pos _ (by simpa using hb)]
        cases b <;> rfl
      · simp only [List.map_cons, List.zip_cons_cons]
        rw [List.find?_cons_of_neg _ (by simpa using hb),
          List.find?_cons_of_neg _ (by simpa using hb)]
        exact ih

theorem find?_name_of_mem_nodup (bfs : List BuilderField) (bf : BuilderField)
    (hmem : bf ∈ bfs) (hnd : (bfs.map BuilderField.borrow_name).Nodup) :
    bfs.find? (fun b => b.borrow_name = bf.borrow_name) = some bf := by
  induction bfs with
  | nil => cases hmem
  | cons c cs ih =>
      rw [List.map_cons, List.nodup_cons] at hnd
      by_cases hc : c.borrow_name = bf.borrow_name
      · have hbc : bf = c := by
          rcases List.mem_cons.mp hmem with h | h
          · exact h
          · exact absurd (hc ▸ List.mem_map_of_mem BuilderField.borrow_name h) hnd.1
        rw [List.find?_cons_of_pos _ (by simpa using hc), hbc]
      · have hbf : bf ∈ cs := by
          rcases List.mem_cons.mp hmem with h | h
          · exact absurd (congrArg BuilderField.borrow_name h.symm) hc
          · exact h
        rw [List.find?_cons_of_neg _ (by simpa using hc)]
        exact ih hbf hnd.2

theorem find?_zip_setter (x : String) (v : Int) :
    ∀ (bfs : List BuilderField) (vals : List (Option Int)),
    vals.length = bfs.length →
    ∀ bf, bfs.find? (fun b => b.borrow_name = x) = some bf →
    (bfs.zip (List.zipWith (fun b o => if b.borrow_name = x then some v else o) bfs vals)).find?
        (fun q => q.1.borrow_name = x) = some (bf, some v) := by
  intro bfs
  induction bfs with
  | nil =>
      intro vals _ bf hfind
      cases hfind
  | cons b bs ih =>
      intro vals hlen bf hfind
      cases vals with
      | nil => cases hlen
      | cons o os =>
          by_cases hb : b.borrow_name = x
          · rw [List.find?_cons_of_pos _ (by simpa using hb)] at hfind
            cases hfind
            simp only [List.zipWith_cons_cons, if_pos hb, List.zip_cons_cons]
            rw [List.find?_cons_of_pos _ (by simpa using hb)]
          · rw [List.find?_cons_of_neg _ (by simpa using hb)] at hfind
            simp only [List.zipWith_cons_cons, if_neg hb, List.zip_cons_cons]
            rw [List.find?_cons_of_neg _ (by simpa using hb)]
            exact ih os (by simpa using hlen) bf hfind

/-- Claim C2, counterexample: an override-classified field whose struct
field carries both a default initializer (`3`) and a per-builder override
initializer (`7` for this builder): with the setter never invoked, `build()`
yields `7` — the per-builder initializer, not the default initializer the
claim asserts. -/
theorem c2_counterexample :
    make_builder_impl false
        ⟨Vis.Public, "OvBuilder", [BuilderParam.Field "x" true], none, ReturnSemantics.Selff⟩
        [⟨"x", "i32", [("OvBuilder", SExpr.lit 7)], some (SExpr.lit 3)⟩] =
      .ok ⟨"OvBuilder", false, [], [BuilderField.Override "x" "i32"], ["x"],
        ReturnSemantics.Selff, [("x", SExpr.lit 7)]⟩ ∧
    buildValues
        ⟨"OvBuilder", false, [], [BuilderField.Override "x" "i32"], ["x"],
          ReturnSemantics.Selff, [("x", SExpr.lit 7)]⟩
        (newBuilderState ⟨"OvBuilder", false, [], [BuilderField.Override "x" "i32"], ["x"],
          ReturnSemantics.Selff, [("x", SExpr.lit 7)]⟩) = [7] ∧
    evalS (fun _ => BindVal.unbound) (SExpr.lit 3) = 3 ∧
    (7 : Int) ≠ 3 := by
  decide

/-- Claim C2 (amended): for an override-classified builder field of a
well-formed generated builder, if its setter is never invoked the value
`build()` produces for that struct field is the chosen initializer — the
override registered for this builder's name, else the default initializer
— evaluated with an empty container; if the setter is invoked with `v`,
the value produced is `v` itself. -/
theorem c2_amended_override_fallback (is_tuple : Bool) (info : BuilderInfo)
    (fields : List FieldInfo) (g : GenBuilder) (x ty : String) (v : Int)
    (st : BuilderState) (i : Nat) (f : FieldInfo)
    (hok : make_builder_impl is_tuple info fields = .ok g)
    (hnodup : (g.builder_fields.map BuilderField.borrow_name).Nodup)
    (hov : BuilderField.Override x ty ∈ g.builder_fields)
    (hlen : st.vals.length = g.builder_fields.length)
    (hi : fields[i]? = some f) (hfx : f.ident = x) :
    (buildValues g (newBuilderState g))[i]? =
      some (evalS (bindEnv g (newBuilderState g)) (chosenInit info.name f)) ∧
    (buildValues g (optionalSetter g x v st))[i]? = some v := by
  obtain ⟨hname, hinits, hovf, hmk⟩ := make_builder_impl_ok is_tuple info fields g hok
  have hfind : g.builder_fields.find? (fun b => b.borrow_name = x) =
      some (BuilderField.Override x ty) := by
    have := find?_name_of_mem_nodup g.builder_fields (BuilderField.Override x ty) hov hnodup
    simpa using this
  have hcont : g.override_fields.contains x = true := by
    rw [hovf]
    exact List.elem_eq_true_of_mem
      (List.mem_filterMap.mpr ⟨BuilderField.Override x ty, hov, rfl⟩)
  have hmemov : x ∈ g.override_fields := by
    rw [hovf]
    exact List.mem_filterMap.mpr ⟨BuilderField.Override x ty, hov, rfl⟩
  have hinit_i : g.inits[i]? = some (f.ident, chosenInit info.name f) := by
    rw [hinits, List.getElem?_map _ fields i, hi]
    rfl
  subst hfx
  constructor
  · show (g.inits.map _)[i]? = _
    rw [List.getElem?_map _ g.inits i, hinit_i]
    have henv : bindEnv g (newBuilderState g) f.ident = BindVal.optv none := by
      rw [bindEnv_new, hfind]
    simp [hcont, hmemov, henv]
  · show (g.inits.map _)[i]? = _
    rw [List.getElem?_map _ g.inits i, hinit_i]
    have henv : bindEnv g (optionalSetter g f.ident v st) f.ident = BindVal.optv (some v) := by
      unfold bindEnv optionalSetter
      rw [find?_zip_setter f.ident v g.builder_fields st.vals hlen
        (BuilderField.Override f.ident ty) hfind]
    simp [hcont, hmemov, henv]

/-- Claim C2, witness: the amended theorem applied to the crate's
`OverridableBuilt` example — an unset override yields the default `0`, a
set override yields the supplied `12`. -/
theorem c2_amended_override_fallback_witness :
    (buildValues
        ⟨"OverridableBuilder", false, [], [BuilderField.Override "defaults_to_zero" "i32"],
          ["defaults_to_zero"], ReturnSemantics.Selff, [("defaults_to_zero", SExpr.lit 0)]⟩
        (newBuilderState
          ⟨"OverridableBuilder", false, [], [BuilderField.Override "defaults_to_zero" "i32"],
            ["defaults_to_zero"], ReturnSemantics.Selff,
            [("defaults_to_zero", SExpr.lit 0)]⟩))[0]? =
      some (evalS
        (bindEnv
          ⟨"OverridableBuilder", false, [], [BuilderField.Override "defaults_to_zero" "i32"],
            ["defaults_to_zero"], ReturnSemantics.Selff, [("defaults_to_zero", SExpr.lit 0)]⟩
          (newBuilderState
            ⟨"OverridableBuilder", false, [], [BuilderField.Override "defaults_to_zero" "i32"],
              ["defaults_to_zero"], ReturnSemantics.Selff,
              [("defaults_to_zero", SExpr.lit 0)]⟩))
        (chosenInit "OverridableBuilder" ⟨"defaults_to_zero", "i32", [], some (SExpr.lit 0)⟩)) ∧
    (buildValues
        ⟨"OverridableBuilder", false, [], [BuilderField.Override "defaults_to_zero" "i32"],
          ["defaults_to_zero"], ReturnSemantics.Selff, [("defaults_to_zero", SExpr.lit 0)]⟩
        (optionalSetter
          ⟨"OverridableBuilder", false, [], [BuilderField.Override "defaults_to_zero" "i32"],
            ["defaults_to_zero"], ReturnSemantics.Selff, [("defaults_to_zero", SExpr.lit 0)]⟩
          "defaults_to_zero" 12 ⟨[none], []⟩))[0]? = some 12 :=
  c2_amended_override_fallback false
    ⟨Vis.Public, "OverridableBuilder", [BuilderParam.Field "defaults_to_zero" true], none,
      ReturnSemantics.Selff⟩
    [⟨"defaults_to_zero", "i32", [], some (SExpr.lit 0)⟩]
    ⟨"OverridableBuilder", false, [], [BuilderField.Override "defaults_to_zero" "i32"],
      ["defaults_to_zero"], ReturnSemantics.Selff, [("defaults_to_zero", SExpr.lit 0)]⟩
    "defaults_to_zero" "i32" 12 ⟨[none], []⟩ 0
    ⟨"defaults_to_zero", "i32", [], some (SExpr.lit 0)⟩
    (by decide) (by decide) (by decide) (by decide) (by decide) (by decide)

theorem mbfLoop_status_params (fields : List FieldInfo) :
    ∀ (params : List BuilderParam) (sps : List String) (bfs : List BuilderField)
      (remaining : List FieldInfo) (out : List String × List BuilderField × List FieldInfo),
    mbfLoop fields params sps bfs remaining = .ok out →
    sps = requiredStatusParams bfs →
    out.1 = requiredStatusParams out.2.1 := by
  intro params
  induction params with
  | nil =>
      intro sps bfs remaining out h hinv
      cases h
      exact hinv
  | cons p ps ih =>
      intro sps bfs remaining out h hinv
      cases p with
      | Field n overrid =>
          cases hres : resolveBuilderFieldParam fields remaining n with
          | error e =>
              rw [mbfLoop, hres] at h
              cases h
          | ok pair =>
              obtain ⟨f, rem2⟩ := pair
              rw [mbfLoop, hres] at h
              dsimp only [] at h
              by_cases hov : overrid
              · rw [if_pos hov] at h
                refine ih _ _ _ out h ?_
                simp [requiredStatusParams, List.filterMap_append, hinv]
              · rw [if_neg hov] at h
                refine ih _ _ _ out h ?_
                simp only [requiredStatusParams, List.filterMap_append] at hinv ⊢
                simp [hinv]
      | Custom n ty optional =>
          rw [mbfLoop] at h
          by_cases hopt : optional
          · rw [if_pos hopt] at h
            refine ih _ _ _ out h ?_
            simp [requiredStatusParams, List.filterMap_append, hinv]
          · rw [if_neg hopt] at h
            refine ih _ _ _ out h ?_
            simp only [requiredStatusParams, List.filterMap_append] at hinv ⊢
            simp [hinv]

theorem filterMap_required_map (rem : List FieldInfo) :
    List.filterMap (fun bf =>
      match bf with
      | BuilderField.Required _ _ sp => some sp
      | _ => none)
      (rem.map (fun f => BuilderField.Required f.ident f.ty (statusParamName f.ident))) =
    rem.map (fun f => statusParamName f.ident) := by
  induction rem with
  | nil => rfl
  | cons r rs ih => simp [ih]

theorem make_builder_fields_status_params (builder_name : String)
    (params : List BuilderParam) (fields : List FieldInfo)
    (sps : List String) (bfs : List BuilderField)
    (h : make_builder_fields builder_name params fields = .ok (sps, bfs)) :
    sps = requiredStatusParams bfs := by
  unfold make_builder_fields at h
  cases hloop : mbfLoop fields params [] [] (poolFields builder_name fields) with
  | error e => rw [hloop] at h; cases h
  | ok out =>
      obtain ⟨sps0, bfs0, rem0⟩ := out
      rw [hloop] at h
      cases h
      have h0 : sps0 = requiredStatusParams bfs0 :=
        mbfLoop_status_params fields params [] [] (poolFields builder_name fields)
          (sps0, bfs0, rem0) hloop rfl
      rw [h0]
      simp only [requiredStatusParams, List.filterMap_append]
      congr 1
      exact (filterMap_required_map rem0).symm

theorem mem_filterMap_nodup_inj {α β : Type} (f : α → Option β) :
    ∀ (l : List α), (l.filterMap f).Nodup →
    ∀ a b x, a ∈ l → b ∈ l → f a = some x → f b = some x → a = b := by
  intro l
  induction l with
  | nil =>
      intro _ a b x ha
      cases ha
  | cons c t ih =>
      intro hnd a b x ha hb hfa hfb
      cases hfc : f c with
      | none =>
          have hnd2 : (t.filterMap f).Nodup := by
            rwa [List.filterMap_cons_none hfc] at hnd
          have ha2 : a ∈ t := by
            rcases List.mem_cons.mp ha with h | h
            · subst h; rw [hfa] at hfc; cases hfc
            · exact h
          have hb2 : b ∈ t := by
            rcases List.mem_cons.mp hb with h | h
            · subst h; rw [hfb] at hfc; cases hfc
            · exact h
          exact ih hnd2 a b x ha2 hb2 hfa hfb
      | some y =>
          rw [List.filterMap_cons_some hfc, List.nodup_cons] at hnd
          rcases List.mem_cons.mp ha with ha2 | ha2
          · rcases List.mem_cons.mp hb with hb2 | hb2
            · rw [ha2, hb2]
            · subst ha2
              rw [hfa] at hfc
              cases hfc
              exact absurd (List.mem_filterMap.mpr ⟨b, hb2, hfb⟩) hnd.1
          · rcases List.mem_cons.mp hb with hb2 | hb2
            · subst hb2
              rw [hfb] at hfc
              cases hfc
              exact absurd (List.mem_filterMap.mpr ⟨a, ha2, hfa⟩) hnd.1
            · exact ih hnd.2 a b x ha2 hb2 hfa hfb

/-- Claim C7: invoking a required field's setter yields a builder in which
exactly that field's container holds the supplied value and exactly that
field's status position is fixed to present, while every other field's
container and every other status position — in particular every distinct
required field's container and marker — is carried over unchanged.
A hypothesis requires the generated builder to be well-formed (distinct
status parameters, which duplicate-marker collisions would violate). -/
theorem c7_required_setter_frame (is_tuple : Bool) (info : BuilderInfo)
    (fields : List FieldInfo) (g : GenBuilder)
    (hok : make_builder_impl is_tuple info fields = .ok g)
    (hsps : g.status_params.Nodup)
    (na ta spa : String) (ha : BuilderField.Required na ta spa ∈ g.builder_fields)
    (v : Int) (st : BuilderState) :
    (∀ (k : Nat) (bf : BuilderField), g.builder_fields[k]? = some bf → bf.borrow_name = na →
      (requiredSetter g na spa v st).vals[k]? = (st.vals[k]?).map (fun _ => some v)) ∧
    (∀ (k : Nat) (bf : BuilderField), g.builder_fields[k]? = some bf → bf.borrow_name ≠ na →
      (requiredSetter g na spa v st).vals[k]? = st.vals[k]?) ∧
    (∀ (j : Nat) (s : String), g.status_params[j]? = some s → s = spa →
      (requiredSetter g na spa v st).marks[j]? = (st.marks[j]?).map (fun _ => true)) ∧
    (∀ (j : Nat) (s : String), g.status_params[j]? = some s → s ≠ spa →
      (requiredSetter g na spa v st).marks[j]? = st.marks[j]?) ∧
    (∀ nb tb spb, BuilderField.Required nb tb spb ∈ g.builder_fields → nb ≠ na →
      spb ≠ spa ∧
      (∀ (j : Nat), g.status_params[j]? = some spb →
        (requiredSetter g na spa v st).marks[j]? = st.marks[j]?) ∧
      (∀ (k : Nat), g.builder_fields[k]? = some (BuilderField.Required nb tb spb) →
        (requiredSetter g na spa v st).vals[k]? = st.vals[k]?)) := by
  obtain ⟨hname, hinits, hovf, hmk⟩ := make_builder_impl_ok is_tuple info fields g hok
  have hcorr : g.status_params = requiredStatusParams g.builder_fields :=
    make_builder_fields_status_params info.name info.params fields
      g.status_params g.builder_fields hmk
  have hvals_set : ∀ (k : Nat) (bf : BuilderField), g.builder_fields[k]? = some bf → bf.borrow_name = na →
      (requiredSetter g na spa v st).vals[k]? = (st.vals[k]?).map (fun _ => some v) := by
    intro k bf hk hb
    show (List.zipWith _ g.builder_fields st.vals)[k]? = _
    rw [List.getElem?_zipWith', hk]
    cases st.vals[k]? with
    | none => rfl
    | some x => simp [hb]
  have hvals_other : ∀ (k : Nat) (bf : BuilderField), g.builder_fields[k]? = some bf → bf.borrow_name ≠ na →
      (requiredSetter g na spa v st).vals[k]? = st.vals[k]? := by
    intro k bf hk hb
    show (List.zipWith _ g.builder_fields st.vals)[k]? = _
    rw [List.getElem?_zipWith', hk]
    cases st.vals[k]? with
    | none => rfl
    | some x => simp [hb]
  have hmarks_set : ∀ (j : Nat) (s : String), g.status_params[j]? = some s → s = spa →
      (requiredSetter g na spa v st).marks[j]? = (st.marks[j]?).map (fun _ => true) := by
    intro j s hj hs
    show (List.zipWith _ g.status_params st.marks)[j]? = _
    rw [List.getElem?_zipWith', hj]
    cases st.marks[j]? with
    | none => rfl
    | some m => simp [hs]
  have hmarks_other : ∀ (j : Nat) (s : String), g.status_params[j]? = some s → s ≠ spa →
      (requiredSetter g na spa v st).marks[j]? = st.marks[j]? := by
    intro j s hj hs
    show (List.zipWith _ g.status_params st.marks)[j]? = _
    rw [List.getElem?_zipWith', hj]
    cases st.marks[j]? with
    | none => rfl
    | some m => simp [hs]
  refine ⟨hvals_set, hvals_other, hmarks_set, hmarks_other, ?_⟩
  intro nb tb spb hmemb hnb
  have hspsne : spb ≠ spa := by
    intro hsp
    subst hsp
    have hnd2 : (List.filterMap (fun bf =>
        match bf with
        | BuilderField.Required _ _ sp => some sp
        | _ => none) g.builder_fields).Nodup := by
      have hdef : requiredStatusParams g.builder_fields = List.filterMap (fun bf =>
        match bf with
        | BuilderField.Required _ _ sp => some sp
        | _ => none) g.builder_fields := rfl
      rw [← hdef, ← hcorr]
      exact hsps
    have heq := mem_filterMap_nodup_inj
      (fun bf => match bf with
        | BuilderField.Required _ _ sp => some sp
        | _ => none)
      g.builder_fields hnd2
      (BuilderField.Required nb tb spb) (BuilderField.Required na ta spb) spb
      hmemb ha rfl rfl
    cases heq
    exact hnb rfl
  refine ⟨hspsne, fun j hj => hmarks_other j spb hj hspsne, ?_⟩
  intro k hk
  exact hvals_other k (BuilderField.Required nb tb spb) hk (by simpa using hnb)

/-- Claim C7, witness: in the two-required-field `BasicBuilt` builder,
setting `int` stores the value in `int`'s container, marks `int` present,
and leaves `string`'s container and marker untouched. -/
theorem c7_required_setter_frame_witness :
    (requiredSetter
        ⟨"BasicBuiltBuilder", false, ["IntStatus__", "StringStatus__"],
          [BuilderField.Required "int" "i32" "IntStatus__",
           BuilderField.Required "string" "String" "StringStatus__"],
          [], ReturnSemantics.Selff,
          [("int", SExpr.param "int"), ("string", SExpr.param "string")]⟩
        "int" "IntStatus__" 7 ⟨[none, some 3], [false, true]⟩).vals[1]? = some (some 3) ∧
    (requiredSetter
        ⟨"BasicBuiltBuilder", false, ["IntStatus__", "StringStatus__"],
          [BuilderField.Required "int" "i32" "IntStatus__",
           BuilderField.Required "string" "String" "StringStatus__"],
          [], ReturnSemantics.Selff,
          [("int", SExpr.param "int"), ("string", SExpr.param "string")]⟩
        "int" "IntStatus__" 7 ⟨[none, some 3], [false, true]⟩).marks[1]? = some true := by
  have h := c7_required_setter_frame false
    ⟨Vis.Public, "BasicBuiltBuilder", [], none, ReturnSemantics.Selff⟩
    [⟨"int", "i32", [], none⟩, ⟨"string", "String", [], none⟩]
    ⟨"BasicBuiltBuilder", false, ["IntStatus__", "StringStatus__"],
      [BuilderField.Required "int" "i32" "IntStatus__",
       BuilderField.Required "string" "String" "StringStatus__"],
      [], ReturnSemantics.Selff,
      [("int", SExpr.param "int"), ("string", SExpr.param "string")]⟩
    (by decide) (by decide)
    "int" "i32" "IntStatus__" (by decide) 7 ⟨[none, some 3], [false, true]⟩
  obtain ⟨-, -, -, -, h5⟩ := h
  obtain ⟨-, hm, hv⟩ := h5 "string" "String" "StringStatus__" (by decide) (by decide)
  constructor
  · rw [hv 1 (by decide)]
    decide
  · rw [hm 1 (by decide)]
    decide

theorem insertRemaining_eq (fs : List FieldInfo) :
    ∀ (impls : List CtorArg) (idx : Nat), idx ≤ impls.length →
    insertRemaining fs impls idx = insertListAt idx (fs.map argOfField) impls := by
  induction fs with
  | nil =>
      intro impls idx _
      simp [insertRemaining, insertListAt]
  | cons f fs ih =>
      intro impls idx h
      have hlen : (impls.take idx).length = idx := by
        simp [List.length_take, Nat.min_eq_left h]
      rw [insertRemaining, ih (insertAt impls idx (argOfField f)) (idx + 1)
        (by simp only [insertAt, List.length_append, List.length_cons, hlen]; omega)]
      simp only [insertListAt, insertAt, List.map_cons]
      rw [List.take_append_eq_append_take, List.drop_append_eq_append_drop]
      rw [List.take_take, Nat.min_eq_right (Nat.le_succ idx), hlen]
      have h1 : idx + 1 - idx = 1 := by omega
      rw [h1]
      have h2 : (impls.take idx).drop (idx + 1) = [] :=
        List.drop_eq_nil_of_le (by omega)
      rw [h2]
      simp

theorem extractFirst_eq_filter (n : String) :
    ∀ (remaining : List FieldInfo), (remaining.map FieldInfo.ident).Nodup →
    ∀ f r2, extractFirst remaining n = some (f, r2) →
    r2 = remaining.filter (fun g => !(g.ident = n)) := by
  intro remaining
  induction remaining with
  | nil =>
      intro _ f r2 h
      cases h
  | cons g gs ih =>
      intro hnd f r2 h
      rw [List.map_cons, List.nodup_cons] at hnd
      by_cases hg : g.ident = n
      · rw [extractFirst, if_pos hg] at h
        cases h
        have hall : ∀ x ∈ gs, (!(x.ident = n)) = true := by
          intro x hx
          simp only [Bool.not_eq_true', decide_eq_false_iff_not]
          intro hxn
          exact hnd.1 (hg ▸ hxn ▸ List.mem_map_of_mem FieldInfo.ident hx)
        rw [List.filter_cons_of_neg (by simp [hg]), List.filter_eq_self.mpr hall]
      · rw [extractFirst, if_neg hg] at h
        cases hrec : extractFirst gs n with
        | none => rw [hrec] at h; cases h
        | some p =>
            rw [hrec] at h
            cases h
            rw [List.filter_cons_of_pos (by simp [hg])]
            rw [ih hnd.2 p.1 p.2 hrec]

theorem findField_of_exists (fields : List FieldInfo) (n : String)
    (h : ∃ f ∈ fields, f.ident = n) : ∃ f, findField fields n = some f ∧ f.ident = n := by
  cases hff : findField fields n with
  | none =>
      obtain ⟨f, hmem, hid⟩ := h
      exact absurd hid ((findField_eq_none fields n).mp hff f hmem)
  | some f =>
      exact ⟨f, rfl, (findField_some fields n f hff).2⟩

theorem fieldRefNames_contains_field_cons (n : String) (ps : List ConstructorParam)
    (x : String) :
    (fieldRefNames (ConstructorParam.Field n :: ps)).contains x =
      ((x == n) || (fieldRefNames ps).contains x) := rfl

theorem fieldRefNames_custom_cons (n ty : String) (ps : List ConstructorParam) :
    fieldRefNames (ConstructorParam.Custom n ty :: ps) = fieldRefNames ps := rfl

theorem fieldRefNames_ellipses_cons (ps : List ConstructorParam) :
    fieldRefNames (ConstructorParam.Ellipses :: ps) = fieldRefNames ps := rfl

theorem mcaLoop_spec (fields : List FieldInfo)
    (hnd : (fields.map FieldInfo.ident).Nodup) :
    ∀ (params : List ConstructorParam) (impls : List CtorArg)
      (remaining : List FieldInfo) (idx : Nat),
    remaining.Sublist fields →
    (∀ n ∈ fieldRefNames params, ∃ f ∈ fields, f.ident = n) →
    mcaLoop fields params impls remaining idx =
      .ok (impls ++ explicitArgs fields params,
        remaining.filter (fun f => !(fieldRefNames params).contains f.ident),
        finalInsertIdx impls.length idx params) := by
  intro params
  induction params with
  | nil =>
      intro impls remaining idx _ _
      simp [mcaLoop, explicitArgs, fieldRefNames, finalInsertIdx, List.filter_true]
  | cons p ps ih =>
      intro impls remaining idx hsub href
      have hndrem : (remaining.map FieldInfo.ident).Nodup :=
        hnd.sublist (hsub.map FieldInfo.ident)
      cases p with
      | Field n =>
          have hrefn : ∃ f ∈ fields, f.ident = n := by
            refine href n ?_
            simp [fieldRefNames]
          obtain ⟨f0, hff, hf0⟩ := findField_of_exists fields n hrefn
          have hrefs : ∀ m ∈ fieldRefNames ps, ∃ f ∈ fields, f.ident = m := by
            intro m hm
            refine href m ?_
            simp [fieldRefNames]
            right
            simpa [fieldRefNames] using hm
          cases hex : extractFirst remaining n with
          | some pr =>
              obtain ⟨g, rem2⟩ := pr
              obtain ⟨hgmem, hgid⟩ := extractFirst_mem remaining n g rem2 hex
              have hgf0 : g = f0 :=
                List.inj_on_of_nodup_map hnd (hsub.subset hgmem)
                  (findField_some fields n f0 hff).1 (by rw [hgid, hf0])
              have hrem2 : rem2 = remaining.filter (fun x => !(x.ident = n)) :=
                extractFirst_eq_filter n remaining hndrem g rem2 hex
              have hres : resolveFieldParam fields remaining n = .ok (argOfField g, rem2) := by
                rw [resolveFieldParam, hex]
              rw [mcaLoop, hres]
              dsimp only []
              rw [ih (impls ++ [argOfField g]) rem2 idx
                (by rw [hrem2]; exact (List.filter_sublist remaining).trans hsub) hrefs]
              have harg : explicitArgs fields (ConstructorParam.Field n :: ps) =
                  argOfField f0 :: explicitArgs fields ps := by
                simp [explicitArgs, hff]
              rw [harg, hgf0]
              have hfil : rem2.filter (fun f => !(fieldRefNames ps).contains f.ident) =
                  remaining.filter
                    (fun f => !(fieldRefNames (ConstructorParam.Field n :: ps)).contains f.ident) := by
                rw [hrem2, List.filter_filter]
                refine List.filter_congr ?_
                intro x _
                rw [fieldRefNames_contains_field_cons]
                by_cases hxn : x.ident = n
                · simp [hxn]
                · simp [hxn]
              rw [hfil]
              have hidx : finalInsertIdx (impls ++ [argOfField f0]).length idx ps =
                  finalInsertIdx impls.length idx (ConstructorParam.Field n :: ps) := by
                simp [finalInsertIdx]
              rw [hidx]
              simp
          | none =>
              have hnone : ∀ x ∈ remaining, x.ident ≠ n :=
                (extractFirst_eq_none remaining n).mp hex
              have hres : resolveFieldParam fields remaining n = .ok (argOfField f0, remaining) := by
                rw [resolveFieldParam, hex, hff]
              rw [mcaLoop, hres]
              dsimp only []
              rw [ih (impls ++ [argOfField f0]) remaining idx hsub hrefs]
              have harg : explicitArgs fields (ConstructorParam.Field n :: ps) =
                  argOfField f0 :: explicitArgs fields ps := by
                simp [explicitArgs, hff]
              rw [harg]
              have hfil : remaining.filter (fun f => !(fieldRefNames ps).contains f.ident) =
                  remaining.filter
                    (fun f => !(fieldRefNames (ConstructorParam.Field n :: ps)).contains f.ident) := by
                refine List.filter_congr ?_
                intro x hx
                rw [fieldRefNames_contains_field_cons]
                simp [hnone x hx]
              rw [hfil]
              have hidx : finalInsertIdx (impls ++ [argOfField f0]).length idx ps =
                  finalInsertIdx impls.length idx (ConstructorParam.Field n :: ps) := by
                simp [finalInsertIdx]
              rw [hidx]
              simp
      | Custom n ty =>
          have hrefs : ∀ m ∈ fieldRefNames ps, ∃ f ∈ fields, f.ident = m := by
            intro m hm
            exact href m (by simpa [fieldRefNames] using hm)
          rw [mcaLoop, ih (impls ++ [(⟨n, ty⟩ : CtorArg)]) remaining idx hsub hrefs]
          have harg : explicitArgs fields (ConstructorParam.Custom n ty :: ps) =
              ⟨n, ty⟩ :: explicitArgs fields ps := by
            simp [explicitArgs]
          rw [harg]
          have hfil : remaining.filter (fun f => !(fieldRefNames ps).contains f.ident) =
              remaining.filter
                (fun f => !(fieldRefNames (ConstructorParam.Custom n ty :: ps)).contains f.ident) := by
            rw [fieldRefNames_custom_cons]
          rw [hfil]
          have hidx : finalInsertIdx (impls ++ [(⟨n, ty⟩ : CtorArg)]).length idx ps =
              finalInsertIdx impls.length idx (ConstructorParam.Custom n ty :: ps) := by
            simp [finalInsertIdx]
          rw [hidx]
          simp
      | Ellipses =>
          have hrefs : ∀ m ∈ fieldRefNames ps, ∃ f ∈ fields, f.ident = m := by
            intro m hm
            exact href m (by simpa [fieldRefNames] using hm)
          rw [mcaLoop, ih impls remaining impls.length hsub hrefs]
          have harg : explicitArgs fields (ConstructorParam.Ellipses :: ps) =
              explicitArgs fields ps := by
            simp [explicitArgs]
          have hfil : remaining.filter (fun f => !(fieldRefNames ps).contains f.ident) =
              remaining.filter
                (fun f => !(fieldRefNames (ConstructorParam.Ellipses :: ps)).contains f.ident) := by
            rw [fieldRefNames_ellipses_cons]
          have hidx : finalInsertIdx impls.length impls.length ps =
              finalInsertIdx impls.length idx (ConstructorParam.Ellipses :: ps) := by
            simp [finalInsertIdx]
          rw [harg, hfil, hidx]

theorem countP_insertListAt (i : Nat) (xs l : List CtorArg) (p : CtorArg → Bool) :
    (insertListAt i xs l).countP p = xs.countP p + l.countP p := by
  have h := List.take_append_drop i l
  calc (insertListAt i xs l).countP p
      = (l.take i).countP p + (xs.countP p + (l.drop i).countP p) := by
        simp [insertListAt, List.countP_append]
    _ = xs.countP p + ((l.take i).countP p + (l.drop i).countP p) := by omega
    _ = xs.countP p + l.countP p := by rw [← List.countP_append, h]

theorem countP_map_argOfField (l : List FieldInfo) (x : String) :
    (l.map argOfField).countP (fun a => a.name = x) =
      l.countP (fun g => g.ident = x) := by
  induction l with
  | nil => rfl
  | cons g gs ih => simp [List.countP_cons, ih, argOfField]

theorem countP_ident_of_nodup (x : String) :
    ∀ (l : List FieldInfo), (l.map FieldInfo.ident).Nodup →
    ∀ f ∈ l, f.ident = x → l.countP (fun g => g.ident = x) = 1 := by
  intro l
  induction l with
  | nil => intro _ f hf; cases hf
  | cons g gs ih =>
      intro hnd f hf hfx
      rw [List.map_cons, List.nodup_cons] at hnd
      by_cases hg : g.ident = x
      · rw [List.countP_cons, if_pos (by simpa using hg)]
        have hz : gs.countP (fun g2 => g2.ident = x) = 0 := by
          rw [List.countP_eq_zero]
          intro a ha
          simp only [decide_eq_true_eq]
          intro hax
          exact hnd.1 (hg ▸ hax ▸ List.mem_map_of_mem FieldInfo.ident ha)
        omega
      · rw [List.countP_cons, if_neg (by simpa using hg)]
        have hfgs : f ∈ gs := by
          rcases List.mem_cons.mp hf with h | h
          · subst h; exact absurd hfx hg
          · exact h
        rw [ih hnd.2 f hfgs hfx]

theorem countP_explicitArgs (fields : List FieldInfo) (x : String) :
    ∀ (params : List ConstructorParam),
    (∀ n ∈ fieldRefNames params, ∃ f ∈ fields, f.ident = n) →
    (∀ n ty, ConstructorParam.Custom n ty ∈ params → n ≠ x) →
    (explicitArgs fields params).countP (fun a => a.name = x) =
      (fieldRefNames params).count x := by
  intro params
  induction params with
  | nil => intro _ _; rfl
  | cons p ps ih =>
      intro href hcust
      have hrefs : ∀ m ∈ fieldRefNames ps, ∃ f ∈ fields, f.ident = m := by
        intro m hm
        cases p with
        | Field n => exact href m (by simp [fieldRefNames]; right; simpa [fieldRefNames] using hm)
        | Custom n ty => exact href m (by simpa [fieldRefNames] using hm)
        | Ellipses => exact href m (by simpa [fieldRefNames] using hm)
      have hcusts : ∀ n ty, ConstructorParam.Custom n ty ∈ ps → n ≠ x :=
        fun n ty hm => hcust n ty (List.mem_cons_of_mem p hm)
      cases p with
      | Field n =>
          obtain ⟨f0, hff, hf0⟩ :=
            findField_of_exists fields n (href n (by simp [fieldRefNames]))
          have harg : explicitArgs fields (ConstructorParam.Field n :: ps) =
              argOfField f0 :: explicitArgs fields ps := by
            simp [explicitArgs, hff]
          rw [harg, List.countP_cons,
            show fieldRefNames (ConstructorParam.Field n :: ps) = n :: fieldRefNames ps
              from rfl,
            List.count_cons, ih hrefs hcusts]
          congr 1
          by_cases hx : n = x
          · simp [argOfField, hf0, hx]
          · have hbx : (x == n) = false := by
              simp only [beq_eq_false_iff_ne, ne_eq]
              exact fun hxx => hx hxx.symm
            simp [argOfField, hf0, hx, hbx]
      | Custom n ty =>
          have harg : explicitArgs fields (ConstructorParam.Custom n ty :: ps) =
              (⟨n, ty⟩ : CtorArg) :: explicitArgs fields ps := by
            simp [explicitArgs]
          have hnx : n ≠ x := hcust n ty (List.mem_cons_self _ _)
          rw [harg, List.countP_cons, if_neg (by simpa using hnx),
            fieldRefNames_custom_cons, ih hrefs hcusts]
          omega
      | Ellipses =>
          have harg : explicitArgs fields (ConstructorParam.Ellipses :: ps) =
              explicitArgs fields ps := by
            simp [explicitArgs]
          rw [harg, fieldRefNames_ellipses_cons, ih hrefs hcusts]

theorem finalInsertIdx_bound (fields : List FieldInfo) :
    ∀ (params : List ConstructorParam) (base idx : Nat),
    (∀ n ∈ fieldRefNames params, ∃ f ∈ fields, f.ident = n) →
    (ConstructorParam.Ellipses ∈ params →
      finalInsertIdx base idx params ≤ base + (explicitArgs fields params).length) ∧
    (ConstructorParam.Ellipses ∉ params →
      finalInsertIdx base idx params = idx ∧
      (explicitArgs fields params).length = params.length) := by
  intro params
  induction params with
  | nil =>
      intro base idx _
      exact ⟨fun h => absurd h (List.not_mem_nil _), fun _ => ⟨rfl, rfl⟩⟩
  | cons p ps ih =>
      intro base idx href
      have hrefs : ∀ m ∈ fieldRefNames ps, ∃ f ∈ fields, f.ident = m := by
        intro m hm
        cases p with
        | Field n => exact href m (by simp [fieldRefNames]; right; simpa [fieldRefNames] using hm)
        | Custom n ty => exact href m (by simpa [fieldRefNames] using hm)
        | Ellipses => exact href m (by simpa [fieldRefNames] using hm)
      cases p with
      | Field n =>
          obtain ⟨f0, hff, _⟩ :=
            findField_of_exists fields n (href n (by simp [fieldRefNames]))
          have harg : explicitArgs fields (ConstructorParam.Field n :: ps) =
              argOfField f0 :: explicitArgs fields ps := by
            simp [explicitArgs, hff]
          constructor
          · intro hmem
            have hmem2 : ConstructorParam.Ellipses ∈ ps := by
              rcases List.mem_cons.mp hmem with h | h
              · cases h
              · exact h
            have := ((ih (base + 1) idx hrefs).1 hmem2)
            rw [show finalInsertIdx base idx (ConstructorParam.Field n :: ps) =
              finalInsertIdx (base + 1) idx ps from rfl, harg]
            simp only [List.length_cons]
            omega
          · intro hmem
            have hmem2 : ConstructorParam.Ellipses ∉ ps :=
              fun h => hmem (List.mem_cons_of_mem _ h)
            obtain ⟨h1, h2⟩ := (ih (base + 1) idx hrefs).2 hmem2
            rw [show finalInsertIdx base idx (ConstructorParam.Field n :: ps) =
              finalInsertIdx (base + 1) idx ps from rfl, harg]
            simp only [List.length_cons]
            exact ⟨h1, by omega⟩
      | Custom n ty =>
          have harg : explicitArgs fields (ConstructorParam.Custom n ty :: ps) =
              (⟨n, ty⟩ : CtorArg) :: explicitArgs fields ps := by
            simp [explicitArgs]
          constructor
          · intro hmem
            have hmem2 : ConstructorParam.Ellipses ∈ ps := by
              rcases List.mem_cons.mp hmem with h | h
              · cases h
              · exact h
            have := ((ih (base + 1) idx hrefs).1 hmem2)
            rw [show finalInsertIdx base idx (ConstructorParam.Custom n ty :: ps) =
              finalInsertIdx (base + 1) idx ps from rfl, harg]
            simp only [List.length_cons]
            omega
          · intro hmem
            have hmem2 : ConstructorParam.Ellipses ∉ ps :=
              fun h => hmem (List.mem_cons_of_mem _ h)
            obtain ⟨h1, h2⟩ := (ih (base + 1) idx hrefs).2 hmem2
            rw [show finalInsertIdx base idx (ConstructorParam.Custom n ty :: ps) =
              finalInsertIdx (base + 1) idx ps from rfl, harg]
            simp only [List.length_cons]
            exact ⟨h1, by omega⟩
      | Ellipses =>
          have harg : explicitArgs fields (ConstructorParam.Ellipses :: ps) =
              explicitArgs fields ps := by
            simp [explicitArgs]
          constructor
          · intro _
            rw [show finalInsertIdx base idx (ConstructorParam.Ellipses :: ps) =
              finalInsertIdx base base ps from rfl, harg]
            by_cases hmem2 : ConstructorParam.Ellipses ∈ ps
            · have := (ih base base hrefs).1 hmem2
              omega
            · obtain ⟨h1, _⟩ := (ih base base hrefs).2 hmem2
              omega
          · intro hmem
            exact absurd (List.mem_cons_self _ _) hmem

/-- Claim C5, counterexample: the directive `new(a, a)` on a struct with the
sole pool field `a` resolves the first reference from the pool and the
second through the full-field-list fallback, so `a` appears twice in the
generated parameter list rather than exactly once. -/
theorem c5_counterexample :
    make_constructor_args "new" [ConstructorParam.Field "a", ConstructorParam.Field "a"]
        [⟨"a", "i32", [], none⟩] = .ok [⟨"a", "i32"⟩, ⟨"a", "i32"⟩] ∧
    isPoolField "new" ⟨"a", "i32", [], none⟩ = true ∧
    ([⟨"a", "i32"⟩, ⟨"a", "i32"⟩] : List CtorArg).countP (fun a => a.name = "a") = 2 := by
  decide

/-- Claim C5 (amended): when every field reference resolves, the generated
parameter list is exactly the explicitly placed parameters in their written
positions with the unreferenced pool fields inserted, in declaration order,
at the final ellipsis position (or at the end when no ellipsis is present);
consequently every pool field appears exactly once provided the directive
references each field at most once and no custom parameter reuses a pool
field's name (a duplicated reference or a name-clashing custom parameter
adds further occurrences). -/
theorem c5_amended_pool_completeness (constructor_name : String)
    (params : List ConstructorParam) (fields : List FieldInfo)
    (hnd : (fields.map FieldInfo.ident).Nodup)
    (href : ∀ n ∈ fieldRefNames params, ∃ f ∈ fields, f.ident = n) :
    make_constructor_args constructor_name params fields =
      .ok (insertListAt (finalInsertIdx 0 params.length params)
        (((poolFields constructor_name fields).filter
            (fun f => !(fieldRefNames params).contains f.ident)).map argOfField)
        (explicitArgs fields params)) ∧
    ((∀ n, (fieldRefNames params).count n ≤ 1) →
      (∀ n ty, ConstructorParam.Custom n ty ∈ params →
        ∀ f ∈ poolFields constructor_name fields, f.ident ≠ n) →
      ∀ args, make_constructor_args constructor_name params fields = .ok args →
      ∀ f ∈ poolFields constructor_name fields,
        args.countP (fun a => a.name = f.ident) = 1) := by
  have hpoolsub : (poolFields constructor_name fields).Sublist fields :=
    List.filter_sublist fields
  have hmain : make_constructor_args constructor_name params fields =
      .ok (insertListAt (finalInsertIdx 0 params.length params)
        (((poolFields constructor_name fields).filter
            (fun f => !(fieldRefNames params).contains f.ident)).map argOfField)
        (explicitArgs fields params)) := by
    unfold make_constructor_args
    rw [mcaLoop_spec fields hnd params [] (poolFields constructor_name fields)
      params.length hpoolsub href]
    dsimp only []
    have hidx_le : finalInsertIdx 0 params.length params ≤
        (explicitArgs fields params).length := by
      by_cases hmem : ConstructorParam.Ellipses ∈ params
      · have := (finalInsertIdx_bound fields params 0 params.length href).1 hmem
        omega
      · obtain ⟨h1, h2⟩ := (finalInsertIdx_bound fields params 0 params.length href).2 hmem
        omega
    rw [insertRemaining_eq _ _ _ (by simpa using hidx_le)]
    simp
  refine ⟨hmain, ?_⟩
  intro hdup hcust args hargs f hf
  rw [hmain] at hargs
  cases hargs
  rw [countP_insertListAt]
  have hx := f.ident
  have hcust2 : ∀ n ty, ConstructorParam.Custom n ty ∈ params → n ≠ f.ident := by
    intro n ty hmem heq
    exact hcust n ty hmem f hf heq.symm
  rw [countP_explicitArgs fields f.ident params href hcust2]
  rw [countP_map_argOfField]
  by_cases hxref : f.ident ∈ fieldRefNames params
  · have hc1 : (fieldRefNames params).count f.ident = 1 := by
      have hge : 0 < (fieldRefNames params).count f.ident :=
        List.count_pos_iff.mpr hxref
      have hle := hdup f.ident
      omega
    have hz : ((poolFields constructor_name fields).filter
        (fun g => !(fieldRefNames params).contains g.ident)).countP
        (fun g => g.ident = f.ident) = 0 := by
      rw [List.countP_eq_zero]
      intro a ha
      simp only [decide_eq_true_eq]
      intro hax
      have hpred := List.of_mem_filter ha
      rw [hax] at hpred
      rw [Bool.not_eq_true', ← Bool.not_eq_true] at hpred
      exact hpred (List.elem_eq_true_of_mem hxref)
    omega
  · have hc0 : (fieldRefNames params).count f.ident = 0 :=
      List.count_eq_zero.mpr hxref
    have hfin : f ∈ (poolFields constructor_name fields).filter
        (fun g => !(fieldRefNames params).contains g.ident) := by
      refine List.mem_filter.mpr ⟨hf, ?_⟩
      simp only [Bool.not_eq_true']
      rw [← Bool.not_eq_true]
      intro hcontra
      exact hxref (List.mem_of_elem_eq_true hcontra)
    have hnd2 : (((poolFields constructor_name fields).filter
        (fun g => !(fieldRefNames params).contains g.ident)).map FieldInfo.ident).Nodup :=
      hnd.sublist (((List.filter_sublist _).trans hpoolsub).map FieldInfo.ident)
    rw [countP_ident_of_nodup f.ident _ hnd2 f hfin rfl]
    omega

/-- Claim C5, witness: the amended theorem applied to the directive
`new(.., c: i32)` over pool fields `a`, `b`: the unconsumed pool fields go
to the ellipsis position and each appears exactly once. -/
theorem c5_amended_pool_completeness_witness :
    make_constructor_args "new"
        [ConstructorParam.Ellipses, ConstructorParam.Custom "c" "i32"]
        [⟨"a", "i32", [], none⟩, ⟨"b", "i32", [], none⟩] =
      .ok (insertListAt
        (finalInsertIdx 0 2 [ConstructorParam.Ellipses, ConstructorParam.Custom "c" "i32"])
        (((poolFields "new" [⟨"a", "i32", [], none⟩, ⟨"b", "i32", [], none⟩]).filter
            (fun f => !(fieldRefNames
              [ConstructorParam.Ellipses, ConstructorParam.Custom "c" "i32"]).contains f.ident)).map
          argOfField)
        (explicitArgs [⟨"a", "i32", [], none⟩, ⟨"b", "i32", [], none⟩]
          [ConstructorParam.Ellipses, ConstructorParam.Custom "c" "i32"])) ∧
    ∀ args, make_constructor_args "new"
        [ConstructorParam.Ellipses, ConstructorParam.Custom "c" "i32"]
        [⟨"a", "i32", [], none⟩, ⟨"b", "i32", [], none⟩] = .ok args →
      ∀ f ∈ poolFields "new" [⟨"a", "i32", [], none⟩, ⟨"b", "i32", [], none⟩],
        args.countP (fun a => a.name = f.ident) = 1 :=
  ⟨(c5_amended_pool_completeness "new"
      [ConstructorParam.Ellipses, ConstructorParam.Custom "c" "i32"]
      [⟨"a", "i32", [], none⟩, ⟨"b", "i32", [], none⟩]
      (by decide) (by decide)).1,
   (c5_amended_pool_completeness "new"
      [ConstructorParam.Ellipses, ConstructorParam.Custom "c" "i32"]
      [⟨"a", "i32", [], none⟩, ⟨"b", "i32", [], none⟩]
      (by decide) (by decide)).2
      (by
        intro n
        rw [show fieldRefNames [ConstructorParam.Ellipses,
          ConstructorParam.Custom "c" "i32"] = [] from rfl]
        simp)
      (by
        intro n ty hmem
        simp only [List.mem_cons, List.not_mem_nil, or_false] at hmem
        rcases hmem with h | h
        · simp at h
        · injection h with hn hty
          subst hn
          decide)⟩
